import Mathlib

/-!
Verification of the Sia core: consensus transaction validation
(src/consensus/validtransaction.go), the wallet transaction builder
(src/modules/wallet/transactionbuilder.go) and the contract-manager
persistence layer (src/modules/host/contractmanager/persist.go),
shallowly embedded in Lean 4.

Modelling conventions:
- Go's arbitrary-precision unsigned `Currency` is `Nat` (addition is `+`,
  `Cmp` is decidable comparison, `Sub` is truncated subtraction, matching
  the non-negative invariant of the source).
- `BlockHeight` is a `uint64`; it is modelled as `Nat`, with an explicit
  `% 2^64` wherever the Go code can wrap around.
- 32-byte hashes and identifiers (`UnlockHash`, `SiacoinOutputID`,
  `SiafundOutputID`, `FileContractID`, `OutputID`, block IDs, keys) are
  opaque values modelled as `Nat`.
- Cryptographic primitives (canonical hashing of unlock conditions,
  seed hashing, Merkle segment verification, key derivation, signing) are
  external trusted libraries that are not part of the repository; they are
  passed in as explicit function parameters bundled in environment
  structures, so every theorem quantifies over their behaviour.
- Go maps are association lists `List (Nat × α)`; map reads that return
  the zero value on a missing key are modelled with an explicit default.
-/

namespace Sia

/-- Association-list lookup: first entry with the given key. -/
def alookup {α : Type} (l : List (Nat × α)) (k : Nat) : Option α :=
  match l with
  | [] => none
  | (k', v) :: rest => if k' = k then some v else alookup rest k

/-- Association-list upsert: replace the entry for the key if present,
append it otherwise (Go map assignment / bolt `Put`). -/
def aput {α : Type} (l : List (Nat × α)) (k : Nat) (v : α) : List (Nat × α) :=
  match l with
  | [] => [(k, v)]
  | (k', v') :: rest => if k' = k then (k, v) :: rest else (k', v') :: aput rest k v

/-- Association-list delete: remove every entry with the given key
(Go map delete / bolt `Delete`). -/
def adel {α : Type} (l : List (Nat × α)) (k : Nat) : List (Nat × α) :=
  match l with
  | [] => []
  | (k', v') :: rest => if k' = k then adel rest k else (k', v') :: adel rest k

/-- Element of an `UnlockConditions.PublicKeys` list (`types.SiaPublicKey`);
only the raw key bytes are relevant to the embedded code. -/
structure SiaPublicKey where
  key : Nat
  deriving DecidableEq, Repr, Inhabited

/-- Embedding of `types.UnlockConditions`. -/
structure UnlockConditions where
  timelock : Nat
  publicKeys : List SiaPublicKey
  signaturesRequired : Nat
  deriving DecidableEq, Repr, Inhabited

/-- Embedding of `types.SiacoinOutput`. -/
structure SiacoinOutput where
  value : Nat
  unlockHash : Nat
  deriving DecidableEq, Repr, Inhabited

/-- Embedding of `types.SiafundOutput` (carries a `ClaimStart`). -/
structure SiafundOutput where
  value : Nat
  unlockHash : Nat
  claimStart : Nat
  deriving DecidableEq, Repr, Inhabited

/-- Embedding of `types.SiacoinInput`. -/
structure SiacoinInput where
  parentID : Nat
  unlockConditions : UnlockConditions
  deriving DecidableEq, Repr, Inhabited

/-- Embedding of `types.SiafundInput`. -/
structure SiafundInput where
  parentID : Nat
  unlockConditions : UnlockConditions
  claimUnlockHash : Nat
  deriving DecidableEq, Repr, Inhabited

/-- Embedding of the consensus `FileContract` (the old contract form used by
src/consensus/validtransaction.go, with termination hash). -/
structure FileContract where
  start : Nat
  expiration : Nat
  payout : Nat
  fileMerkleRoot : Nat
  fileSize : Nat
  validProofOutputs : List SiacoinOutput
  missedProofOutputs : List SiacoinOutput
  terminationHash : Nat
  deriving DecidableEq, Repr, Inhabited

/-- Embedding of `FileContractTermination`. -/
structure FileContractTermination where
  parentID : Nat
  terminationConditions : UnlockConditions
  payouts : List SiacoinOutput
  deriving DecidableEq, Repr, Inhabited

/-- Embedding of `types.FileContractRevision`; the wallet only counts these,
so only the parent ID is modelled. -/
structure FileContractRevision where
  parentID : Nat
  deriving DecidableEq, Repr, Inhabited

/-- Embedding of `types.StorageProof`. -/
structure StorageProof where
  parentID : Nat
  segment : Nat
  hashSet : List Nat
  deriving DecidableEq, Repr, Inhabited

/-- Embedding of `types.CoveredFields`. -/
structure CoveredFields where
  wholeTransaction : Bool := false
  minerFees : List Nat := []
  siacoinInputs : List Nat := []
  siacoinOutputs : List Nat := []
  fileContracts : List Nat := []
  fileContractRevisions : List Nat := []
  storageProofs : List Nat := []
  siafundInputs : List Nat := []
  siafundOutputs : List Nat := []
  arbitraryData : List Nat := []
  transactionSignatures : List Nat := []
  deriving DecidableEq, Repr, Inhabited

/-- Embedding of `types.TransactionSignature`. -/
structure TransactionSignature where
  parentID : Nat
  publicKeyIndex : Nat
  coveredFields : CoveredFields
  signature : Nat
  deriving DecidableEq, Repr, Inhabited

/-- Embedding of `types.Transaction`. The repository mixes two eras of the
type: the consensus validator uses `FileContractTerminations` while the
wallet builder uses `FileContractRevisions`; the model carries both lists
(each side ignores the other's). -/
structure Transaction where
  siacoinInputs : List SiacoinInput := []
  minerFees : List Nat := []
  siacoinOutputs : List SiacoinOutput := []
  fileContracts : List FileContract := []
  fileContractTerminations : List FileContractTermination := []
  fileContractRevisions : List FileContractRevision := []
  storageProofs : List StorageProof := []
  siafundInputs : List SiafundInput := []
  siafundOutputs : List SiafundOutput := []
  arbitraryData : List Nat := []
  transactionSignatures : List TransactionSignature := []
  deriving DecidableEq, Repr, Inhabited

/-- Embedding of the consensus-state view (`consensus.State`): the read-only
maps and current path consulted by the validator. The struct itself is not
under src/, so the fields follow the spec (section 3, consensus-state view). -/
structure State where
  siacoinOutputs : List (Nat × SiacoinOutput)
  siafundOutputs : List (Nat × SiafundOutput)
  fileContracts : List (Nat × FileContract)
  currentPath : Nat → Nat
  height : Nat

/-- External collaborators of the validator: cryptographic primitives and
the signature-validation step, none of which live under src/.
`ucHash` is `UnlockConditions.UnlockHash()`, `tax` is `FileContract.Tax()`
(a fixed deterministic function of the payout, per the spec), `hashSeed`
is `crypto.HashBytes(triggerID || fcid)`, `verifySegment` is
`crypto.VerifySegment`, and `sigCheck` is `State.validSignatures`. -/
structure CEnv where
  ucHash : UnlockConditions → Nat
  tax : Nat → Nat
  hashSeed : Nat → Nat → Nat
  verifySegment : Nat → List Nat → Nat → Nat → Nat → Bool
  sigCheck : Transaction → Except String Unit

/-- Modelled from the spec: `SEGMENT_SIZE`, the fixed network parameter
(64 bytes) used by `crypto.CalculateSegments`. -/
def segmentSize : Nat := 64

/-- Modelled from the spec: `crypto.CalculateSegments`, i.e.
`numSegments = ceil(fc.FileSize / SEGMENT_SIZE)`. -/
def calculateSegments (fileSize : Nat) : Nat :=
  (fileSize + segmentSize - 1) / segmentSize

/-- Embedding of `Transaction.FollowsStorageProofRules`
(src/consensus/validtransaction.go lines 18-40). -/
def FollowsStorageProofRules (t : Transaction) : Except String Unit :=
  if t.storageProofs = [] then .ok ()
  else if t.siacoinOutputs ≠ [] then
    .error "transaction contains storage proofs and siacoin outputs"
  else if t.fileContracts ≠ [] then
    .error "transaction contains storage proofs and file contracts"
  else if t.fileContractTerminations ≠ [] then
    .error "transaction contains storage proofs and file contract terminations"
  else if t.siafundOutputs ≠ [] then
    .error "transaction contains storage proofs and siafund outputs"
  else .ok ()

/-- Embedding of `Transaction.SiacoinOutputSum`
(src/consensus/validtransaction.go lines 47-64): miner fees plus file
contract payouts plus siacoin output values. -/
def SiacoinOutputSum (t : Transaction) : Nat :=
  t.minerFees.foldl (· + ·) 0
    + t.fileContracts.foldl (fun acc fc => acc + fc.payout) 0
    + t.siacoinOutputs.foldl (fun acc o => acc + o.value) 0

/-- Embedding of `State.validUnlockConditions`
(src/consensus/validtransaction.go lines 68-77). -/
def validUnlockConditions (env : CEnv) (s : State) (uc : UnlockConditions)
    (uh : Nat) : Except String Unit :=
  if env.ucHash uc ≠ uh then .error "unlock conditions do not match unlock hash"
  else if uc.timelock > s.height then .error "unlock condition timelock has not been met"
  else .ok ()

/-- Loop body of `State.validSiacoins`: walks the siacoin inputs, looking
up each parent output and accumulating the input sum. -/
def validSiacoinsLoop (env : CEnv) (s : State) :
    List SiacoinInput → Nat → Except String Nat
  | [], acc => .ok acc
  | sci :: rest, acc =>
    match alookup s.siacoinOutputs sci.parentID with
    | none => .error "transaction spends a nonexisting siacoin output"
    | some sco =>
      match validUnlockConditions env s sci.unlockConditions sco.unlockHash with
      | .error e => .error e
      | .ok () => validSiacoinsLoop env s rest (acc + sco.value)

/-- Embedding of `State.validSiacoins`
(src/consensus/validtransaction.go lines 81-106). -/
def validSiacoins (env : CEnv) (s : State) (t : Transaction) : Except String Unit :=
  match validSiacoinsLoop env s t.siacoinInputs 0 with
  | .error e => .error e
  | .ok inputSum =>
    if inputSum = SiacoinOutputSum t then .ok ()
    else .error "inputs do not equal outputs for transaction"

/-- Sum of the `Value` fields of a list of siacoin outputs. -/
def sumValues (l : List SiacoinOutput) : Nat :=
  l.foldl (fun acc o => acc + o.value) 0

/-- Loop body of `State.validFileContracts`: checks each contract in list
order, reporting the first violated condition. -/
def validFileContractsLoop (env : CEnv) (s : State) :
    List FileContract → Except String Unit
  | [] => .ok ()
  | fc :: rest =>
    if fc.start ≤ s.height then .error "contract must start in the future"
    else if fc.expiration ≤ fc.start then .error "contract duration must be at least one block"
    else if sumValues fc.validProofOutputs ≠ fc.payout - env.tax fc.payout then
      .error "contract valid proof outputs do not sum to the payout minus the siafund fee"
    else if sumValues fc.missedProofOutputs ≠ fc.payout then
      .error "contract missed proof outputs do not sum to the payout"
    else validFileContractsLoop env s rest

/-- Embedding of `State.validFileContracts`
(src/consensus/validtransaction.go lines 110-140). -/
def validFileContracts (env : CEnv) (s : State) (t : Transaction) : Except String Unit :=
  validFileContractsLoop env s t.fileContracts

/-- Loop body of `State.validFileContractTerminations`. -/
def validFileContractTerminationsLoop (env : CEnv) (s : State) :
    List FileContractTermination → Except String Unit
  | [] => .ok ()
  | fct :: rest =>
    match alookup s.fileContracts fct.parentID with
    | none => .error "transaction terminates a nonexisting file contract"
    | some fc =>
      match validUnlockConditions env s fct.terminationConditions fc.terminationHash with
      | .error e => .error e
      | .ok () =>
        if sumValues fct.payouts ≠ fc.payout then
          .error "contract termination has incorrect payouts"
        else validFileContractTerminationsLoop env s rest

/-- Embedding of `State.validFileContractTerminations`
(src/consensus/validtransaction.go lines 144-171). -/
def validFileContractTerminations (env : CEnv) (s : State) (t : Transaction) :
    Except String Unit :=
  validFileContractTerminationsLoop env s t.fileContractTerminations

/-- Embedding of `State.storageProofSegment`
(src/consensus/validtransaction.go lines 175-204). `fc.Start - 1` is a
`uint64` subtraction, hence the explicit wrap-around modulo `2^64`. -/
def storageProofSegment (env : CEnv) (s : State) (fcid : Nat) : Except String Nat :=
  match alookup s.fileContracts fcid with
  | none => .error "unrecognized file contract id"
  | some fc =>
    let triggerHeight := (fc.start + (2 ^ 64 - 1)) % 2 ^ 64
    if triggerHeight > s.height then .error "no block found at contract trigger block height"
    else
      let triggerID := s.currentPath triggerHeight
      let seed := env.hashSeed triggerID fcid
      let numSegments := calculateSegments fc.fileSize
      .ok (seed % numSegments)

/-- Loop body of `State.validStorageProofs`. -/
def validStorageProofsLoop (env : CEnv) (s : State) :
    List StorageProof → Except String Unit
  | [] => .ok ()
  | sp :: rest =>
    match alookup s.fileContracts sp.parentID with
    | none => .error "unrecognized file contract ID in storage proof"
    | some fc =>
      match storageProofSegment env s sp.parentID with
      | .error e => .error e
      | .ok segmentIndex =>
        if env.verifySegment sp.segment sp.hashSet (calculateSegments fc.fileSize)
            segmentIndex fc.fileMerkleRoot then
          validStorageProofsLoop env s rest
        else .error "provided storage proof is invalid"

/-- Embedding of `State.validStorageProofs`
(src/consensus/validtransaction.go lines 208-234). -/
def validStorageProofs (env : CEnv) (s : State) (t : Transaction) : Except String Unit :=
  validStorageProofsLoop env s t.storageProofs

/-- Loop body of the siafund-input half of `State.validSiafunds`. -/
def validSiafundInputsLoop (env : CEnv) (s : State) :
    List SiafundInput → Nat → Except String Nat
  | [], acc => .ok acc
  | sfi :: rest, acc =>
    match alookup s.siafundOutputs sfi.parentID with
    | none => .error "transaction spends a nonexisting siafund output"
    | some sfo =>
      match validUnlockConditions env s sfi.unlockConditions sfo.unlockHash with
      | .error e => .error e
      | .ok () => validSiafundInputsLoop env s rest (acc + sfo.value)

/-- Loop body of the siafund-output half of `State.validSiafunds`:
checks each `ClaimStart` is zero while summing the output values. -/
def validSiafundOutputsLoop :
    List SiafundOutput → Nat → Except String Nat
  | [], acc => .ok acc
  | sfo :: rest, acc =>
    if sfo.claimStart ≠ 0 then .error "invalid siafund output presented"
    else validSiafundOutputsLoop rest (acc + sfo.value)

/-- Embedding of `State.validSiafunds`
(src/consensus/validtransaction.go lines 238-278). -/
def validSiafunds (env : CEnv) (s : State) (t : Transaction) : Except String Unit :=
  match validSiafundInputsLoop env s t.siafundInputs 0 with
  | .error e => .error e
  | .ok siafundInputSum =>
    match validSiafundOutputsLoop t.siafundOutputs 0 with
    | .error e => .error e
    | .ok siafundOutputSum =>
      if siafundOutputSum ≠ siafundInputSum then
        .error "siafund inputs do not equal siafund outpus within transaction"
      else .ok ()

/-- Embedding of `State.validTransaction`
(src/consensus/validtransaction.go lines 282-319): the validation pipeline,
each step short-circuiting. The final signature step is external to src/
and is the environment's `sigCheck`. -/
def validTransaction (env : CEnv) (s : State) (t : Transaction) : Except String Unit :=
  match FollowsStorageProofRules t with
  | .error e => .error e
  | .ok () =>
    match validSiacoins env s t with
    | .error e => .error e
    | .ok () =>
      match validFileContracts env s t with
      | .error e => .error e
      | .ok () =>
        match validFileContractTerminations env s t with
        | .error e => .error e
        | .ok () =>
          match validStorageProofs env s t with
          | .error e => .error e
          | .ok () =>
            match validSiafunds env s t with
            | .error e => .error e
            | .ok () => env.sigCheck t

/-- Sum of the values, looked up in the state, of the siacoin outputs
referenced by a list of siacoin inputs; `none` when a referenced output is
missing from the state. -/
def siacoinInputSum (s : State) : List SiacoinInput → Option Nat
  | [] => some 0
  | sci :: rest =>
    match alookup s.siacoinOutputs sci.parentID with
    | none => none
    | some sco =>
      match siacoinInputSum s rest with
      | none => none
      | some n => some (sco.value + n)

/-- Decidable equality for `Except` results, so witnesses can be checked
by evaluation. -/
instance exceptDecEq {ε α : Type} [DecidableEq ε] [DecidableEq α] :
    DecidableEq (Except ε α) := fun a b =>
  match a, b with
  | .error e, .error e' =>
    if h : e = e' then isTrue (by rw [h]) else isFalse (fun hc => h (by cases hc; rfl))
  | .error _, .ok _ => isFalse (fun hc => Except.noConfusion hc)
  | .ok _, .error _ => isFalse (fun hc => Except.noConfusion hc)
  | .ok a, .ok a' =>
    if h : a = a' then isTrue (by rw [h]) else isFalse (fun hc => h (by cases hc; rfl))

/-! Helper lemmas about the validation pipeline. -/

/-- A transaction accepted by `validTransaction` passed every individual
validation step. -/
theorem validTransaction_ok_steps (env : CEnv) (s : State) (t : Transaction)
    (h : validTransaction env s t = .ok ()) :
    FollowsStorageProofRules t = .ok () ∧ validSiacoins env s t = .ok () ∧
    validFileContracts env s t = .ok () ∧
    validFileContractTerminations env s t = .ok () ∧
    validStorageProofs env s t = .ok () ∧ validSiafunds env s t = .ok () := by
  unfold validTransaction at h
  split at h
  · simp at h
  · rename_i h1
    split at h
    · simp at h
    · rename_i h2
      split at h
      · simp at h
      · rename_i h3
        split at h
        · simp at h
        · rename_i h4
          split at h
          · simp at h
          · rename_i h5
            split at h
            · simp at h
            · rename_i h6
              exact ⟨h1, h2, h3, h4, h5, h6⟩

/-- A failing storage-proof-rules check is returned unchanged by the
validation pipeline, before any other check runs. -/
theorem validTransaction_fspr_error (env : CEnv) (s : State) (t : Transaction)
    (e : String) (h : FollowsStorageProofRules t = .error e) :
    validTransaction env s t = .error e := by
  unfold validTransaction
  rw [h]

/-- The siacoin-input loop, when it succeeds, has summed exactly the values
of the referenced outputs. -/
theorem validSiacoinsLoop_ok (env : CEnv) (s : State) :
    ∀ (inputs : List SiacoinInput) (acc n : Nat),
      validSiacoinsLoop env s inputs acc = .ok n →
      ∃ k, siacoinInputSum s inputs = some k ∧ n = acc + k := by
  intro inputs
  induction inputs with
  | nil =>
    intro acc n h
    simp only [validSiacoinsLoop] at h
    exact ⟨0, rfl, by cases h; simp⟩
  | cons sci rest ih =>
    intro acc n h
    simp only [validSiacoinsLoop] at h
    split at h
    · simp at h
    · rename_i sco hl
      split at h
      · simp at h
      · obtain ⟨k, hk, hn⟩ := ih (acc + sco.value) n h
        refine ⟨sco.value + k, ?_, by omega⟩
        simp [siacoinInputSum, hl, hk]

/-- Characterization of a successful `validSiacoins`: every referenced
output exists and the input sum equals `SiacoinOutputSum`. -/
theorem validSiacoins_ok (env : CEnv) (s : State) (t : Transaction)
    (h : validSiacoins env s t = .ok ()) :
    siacoinInputSum s t.siacoinInputs = some (SiacoinOutputSum t) := by
  unfold validSiacoins at h
  split at h
  · simp at h
  · rename_i n hl
    obtain ⟨k, hk, hn⟩ := validSiacoinsLoop_ok env s t.siacoinInputs 0 n hl
    split at h
    · rename_i hc
      rw [hk]
      simp only [Option.some.injEq]
      omega
    · simp at h

/-- C1: for every consensus-state view and transaction the validator
accepts, the sum of the values (looked up in the view) of the siacoin
outputs referenced by the transaction's siacoin inputs equals
`sum(MinerFees) + sum(FileContract.Payout) + sum(SiacoinOutputs.Value)`
(siafund outputs and storage-proof-generated outputs do not enter this sum,
which is exactly what `SiacoinOutputSum` adds up); and if the two sums
differ the validator rejects the transaction. -/
theorem C1_siacoin_flow_conservation (env : CEnv) (s : State) (t : Transaction) :
    (validTransaction env s t = .ok () →
      siacoinInputSum s t.siacoinInputs = some (SiacoinOutputSum t)) ∧
    (siacoinInputSum s t.siacoinInputs ≠ some (SiacoinOutputSum t) →
      ∃ e, validTransaction env s t = .error e) := by
  constructor
  · intro h
    exact validSiacoins_ok env s t (validTransaction_ok_steps env s t h).2.1
  · intro hne
    cases hv : validTransaction env s t with
    | ok u =>
      cases u
      exact absurd (validSiacoins_ok env s t (validTransaction_ok_steps env s t hv).2.1) hne
    | error e => exact ⟨e, rfl⟩

/-- Concrete environment used by the witnesses: any computable instantiation
of the external cryptographic primitives is admissible. -/
def exEnv : CEnv :=
  { ucHash := fun uc => uc.timelock
    tax := fun p => p / 25
    hashSeed := fun _ _ => 0
    verifySegment := fun _ _ _ _ _ => true
    sigCheck := fun _ => .ok () }

/-- Concrete unlock conditions hashing (under `exEnv.ucHash`) to 0. -/
def exUC : UnlockConditions := { timelock := 0, publicKeys := [], signaturesRequired := 0 }

/-- Concrete file contract: payout 100, tax 4, valid proof outputs sum 96,
missed proof outputs sum 100. -/
def exFC : FileContract :=
  { start := 10, expiration := 20, payout := 100, fileMerkleRoot := 0, fileSize := 64
    validProofOutputs := [{ value := 96, unlockHash := 0 }]
    missedProofOutputs := [{ value := 100, unlockHash := 0 }]
    terminationHash := 0 }

/-- Concrete consensus-state view at height 5 with one 100-coin
siacoin output and one live file contract. -/
def exState : State :=
  { siacoinOutputs := [(1, { value := 100, unlockHash := 0 })]
    siafundOutputs := []
    fileContracts := [(5, exFC)]
    currentPath := fun _ => 0
    height := 5 }

/-- Concrete transaction the validator accepts: one 100-coin input funding
one new file contract with payout 100. -/
def exTxn1 : Transaction :=
  { siacoinInputs := [{ parentID := 1, unlockConditions := exUC }]
    fileContracts := [exFC] }

theorem C1_siacoin_flow_conservation_witness :
    siacoinInputSum exState exTxn1.siacoinInputs = some (SiacoinOutputSum exTxn1) :=
  (C1_siacoin_flow_conservation exEnv exState exTxn1).1 (by decide)

/-- C2: a transaction with a non-empty `StorageProofs` list passes
validation only if its `SiacoinOutputs`, `FileContracts`,
`FileContractTerminations` and `SiafundOutputs` are all empty, and a
transaction violating this is rejected with the storage-proof exclusivity
error produced by `FollowsStorageProofRules`, the first step of
`validTransaction`, before any other check runs. -/
theorem C2_storage_proof_exclusivity (env : CEnv) (s : State) (t : Transaction) :
    (t.storageProofs ≠ [] →
      ¬(t.siacoinOutputs = [] ∧ t.fileContracts = [] ∧
        t.fileContractTerminations = [] ∧ t.siafundOutputs = []) →
      ∃ e, FollowsStorageProofRules t = .error e ∧
        validTransaction env s t = .error e) ∧
    (validTransaction env s t = .ok () → t.storageProofs ≠ [] →
      t.siacoinOutputs = [] ∧ t.fileContracts = [] ∧
      t.fileContractTerminations = [] ∧ t.siafundOutputs = []) := by
  constructor
  · intro hsp hne
    have mk : ∀ e : String, FollowsStorageProofRules t = .error e →
        ∃ e, FollowsStorageProofRules t = .error e ∧
          validTransaction env s t = .error e :=
      fun e he => ⟨e, he, validTransaction_fspr_error env s t e he⟩
    by_cases h1 : t.siacoinOutputs = []
    · by_cases h2 : t.fileContracts = []
      · by_cases h3 : t.fileContractTerminations = []
        · by_cases h4 : t.siafundOutputs = []
          · exact absurd ⟨h1, h2, h3, h4⟩ hne
          · exact mk "transaction contains storage proofs and siafund outputs"
              (by simp [FollowsStorageProofRules, hsp, h1, h2, h3, h4])
        · exact mk "transaction contains storage proofs and file contract terminations"
            (by simp [FollowsStorageProofRules, hsp, h1, h2, h3])
      · exact mk "transaction contains storage proofs and file contracts"
          (by simp [FollowsStorageProofRules, hsp, h1, h2])
    · exact mk "transaction contains storage proofs and siacoin outputs"
        (by simp [FollowsStorageProofRules, hsp, h1])
  · intro hv hsp
    have h1 := (validTransaction_ok_steps env s t hv).1
    unfold FollowsStorageProofRules at h1
    rw [if_neg hsp] at h1
    by_cases ha : t.siacoinOutputs = [] <;> simp [ha] at h1
    by_cases hb : t.fileContracts = [] <;> simp [hb] at h1
    by_cases hc : t.fileContractTerminations = [] <;> simp [hc] at h1
    by_cases hd : t.siafundOutputs = [] <;> simp [hd] at h1
    exact ⟨ha, hb, hc, hd⟩

/-- Concrete transaction mixing a storage proof with a siacoin output. -/
def exTxnSP : Transaction :=
  { siacoinOutputs := [{ value := 1, unlockHash := 0 }]
    storageProofs := [{ parentID := 5, segment := 0, hashSet := [] }] }

theorem C2_storage_proof_exclusivity_witness :
    ∃ e, FollowsStorageProofRules exTxnSP = .error e ∧
      validTransaction exEnv exState exTxnSP = .error e :=
  (C2_storage_proof_exclusivity exEnv exState exTxnSP).1 (by decide) (by decide)

/-! Claim C5: file-contract validation rules and error ordering. -/

/-- Written from the spec's words (sections 4.1 step 3 and 5): the first
violated condition of a file contract, in the order start, duration,
valid-proof-output sum, missed-proof-output sum. -/
def fcFirstViolation (env : CEnv) (height : Nat) (fc : FileContract) : Option String :=
  if fc.start ≤ height then some "contract must start in the future"
  else if fc.expiration ≤ fc.start then some "contract duration must be at least one block"
  else if sumValues fc.validProofOutputs ≠ fc.payout - env.tax fc.payout then
    some "contract valid proof outputs do not sum to the payout minus the siafund fee"
  else if sumValues fc.missedProofOutputs ≠ fc.payout then
    some "contract missed proof outputs do not sum to the payout"
  else none

/-- Written from the spec's words: file-contract validation reports the
first violation over contracts in list order, or succeeds. -/
def validFileContractsSpec (env : CEnv) (s : State) (t : Transaction) : Except String Unit :=
  match t.fileContracts.findSome? (fcFirstViolation env s.height) with
  | some e => .error e
  | none => .ok ()

/-- The source loop equals the first-violation description. -/
theorem validFileContractsLoop_eq (env : CEnv) (s : State) :
    ∀ l, validFileContractsLoop env s l =
      (match l.findSome? (fcFirstViolation env s.height) with
       | some e => Except.error e
       | none => Except.ok ()) := by
  intro l
  induction l with
  | nil => rfl
  | cons fc rest ih =>
    by_cases hA : fc.start ≤ s.height
    · simp [validFileContractsLoop, List.findSome?_cons, fcFirstViolation, hA]
    · by_cases hB : fc.expiration ≤ fc.start
      · simp [validFileContractsLoop, List.findSome?_cons, fcFirstViolation, hA, hB]
      · by_cases hC : sumValues fc.validProofOutputs = fc.payout - env.tax fc.payout
        · by_cases hD : sumValues fc.missedProofOutputs = fc.payout
          · simpa [validFileContractsLoop, List.findSome?_cons, fcFirstViolation,
              hA, hB, hC, hD] using ih
          · simp [validFileContractsLoop, List.findSome?_cons, fcFirstViolation,
              hA, hB, hC, hD]
        · simp [validFileContractsLoop, List.findSome?_cons, fcFirstViolation, hA, hB, hC]

/-- A contract with no violation satisfies all four conditions. -/
theorem fcFirstViolation_none (env : CEnv) (height : Nat) (fc : FileContract)
    (h : fcFirstViolation env height fc = none) :
    height < fc.start ∧ fc.start < fc.expiration ∧
    sumValues fc.validProofOutputs = fc.payout - env.tax fc.payout ∧
    sumValues fc.missedProofOutputs = fc.payout := by
  unfold fcFirstViolation at h
  split_ifs at h with hA hB hC hD
  exact ⟨by omega, by omega, not_not.mp hC, not_not.mp hD⟩

/-- C5: the validator accepts a transaction only if every file contract in
it starts in the future, lasts at least one block, and has proof-output
sums matching `Payout - Tax(Payout)` (valid) and `Payout` (missed); and
`validFileContracts` reports exactly the first violated condition, in
condition order, over contracts in list order. -/
theorem C5_file_contract_rules (env : CEnv) (s : State) (t : Transaction) :
    (validTransaction env s t = .ok () →
      ∀ fc ∈ t.fileContracts,
        s.height < fc.start ∧ fc.start < fc.expiration ∧
        sumValues fc.validProofOutputs = fc.payout - env.tax fc.payout ∧
        sumValues fc.missedProofOutputs = fc.payout) ∧
    validFileContracts env s t = validFileContractsSpec env s t := by
  constructor
  · intro hv fc hfc
    have h3 := (validTransaction_ok_steps env s t hv).2.2.1
    unfold validFileContracts at h3
    rw [validFileContractsLoop_eq] at h3
    apply fcFirstViolation_none env s.height fc
    split at h3
    · simp at h3
    · rename_i hnone
      exact List.findSome?_eq_none_iff.mp hnone fc hfc
  · exact validFileContractsLoop_eq env s t.fileContracts

theorem C5_file_contract_rules_witness :
    (exState.height < exFC.start ∧ exFC.start < exFC.expiration ∧
      sumValues exFC.validProofOutputs = exFC.payout - exEnv.tax exFC.payout ∧
      sumValues exFC.missedProofOutputs = exFC.payout) ∧
    validFileContracts exEnv exState exTxn1 = validFileContractsSpec exEnv exState exTxn1 :=
  ⟨(C5_file_contract_rules exEnv exState exTxn1).1 (by decide) exFC (by decide),
   (C5_file_contract_rules exEnv exState exTxn1).2⟩

/-! Claim C9: storage proofs against a contract with `Start = 0`. The
`uint64` subtraction `fc.Start - 1` wraps to `2^64 - 1`; the claim that
this "always exceeds S.height()" fails at the single height `2^64 - 1`,
where the check passes and the current path is indexed after all. -/

/-- Reaching a storage proof whose segment computation fails makes the
whole storage-proof loop fail. -/
theorem validStorageProofsLoop_mem_error (env : CEnv) (s : State) (sp : StorageProof)
    (e0 : String) (hseg : storageProofSegment env s sp.parentID = .error e0) :
    ∀ l, sp ∈ l → ∃ e, validStorageProofsLoop env s l = .error e := by
  intro l
  induction l with
  | nil => intro h; simp at h
  | cons hd tl ih =>
    intro hmem
    rcases List.mem_cons.mp hmem with heq | hmemtl
    · subst heq
      simp only [validStorageProofsLoop]
      cases hl : alookup s.fileContracts sp.parentID with
      | none => exact ⟨_, rfl⟩
      | some fc =>
        rw [hseg]
        exact ⟨e0, rfl⟩
    · simp only [validStorageProofsLoop]
      cases hl : alookup s.fileContracts hd.parentID with
      | none => exact ⟨_, rfl⟩
      | some fc =>
        cases hs : storageProofSegment env s hd.parentID with
        | error e => exact ⟨e, rfl⟩
        | ok idx =>
          by_cases hvseg : env.verifySegment hd.segment hd.hashSet
              (calculateSegments fc.fileSize) idx fc.fileMerkleRoot
          · simpa [hvseg] using ih hmemtl
          · exact ⟨"provided storage proof is invalid", by simp [hvseg]⟩

/-- C9 (amended): for a contract with `Start = 0`, the trigger height wraps
to `2^64 - 1`; whenever the current height is below `2^64 - 1` the
"no block found at contract trigger block height" branch is taken, so any
storage proof against that contract makes validation fail. -/
theorem C9_zero_start_contract_rejected (env : CEnv) (s : State)
    (t : Transaction) (sp : StorageProof) (fc : FileContract)
    (hsp : sp ∈ t.storageProofs)
    (hfc : alookup s.fileContracts sp.parentID = some fc)
    (hstart : fc.start = 0) (hh : s.height < 2 ^ 64 - 1) :
    storageProofSegment env s sp.parentID =
      .error "no block found at contract trigger block height" ∧
    ∃ e, validStorageProofs env s t = .error e := by
  have hseg : storageProofSegment env s sp.parentID =
      .error "no block found at contract trigger block height" := by
    unfold storageProofSegment
    rw [hfc]
    try dsimp only
    rw [hstart]
    have hmod : (0 + (2 ^ 64 - 1)) % 2 ^ 64 = 2 ^ 64 - 1 := by norm_num
    rw [hmod]
    rw [if_pos (by omega)]
  exact ⟨hseg, validStorageProofsLoop_mem_error env s sp _ hseg t.storageProofs hsp⟩

/-- Concrete file contract with `Start = 0`. -/
def exFCZero : FileContract := { exFC with start := 0 }

/-- Concrete storage proof referencing contract ID 5. -/
def exSP : StorageProof := { parentID := 5, segment := 0, hashSet := [] }

/-- Concrete transaction carrying only that storage proof. -/
def exTxnProof : Transaction := { storageProofs := [exSP] }

/-- Concrete view at a small height holding the zero-start contract. -/
def exStateZero : State :=
  { siacoinOutputs := [], siafundOutputs := []
    fileContracts := [(5, exFCZero)]
    currentPath := fun _ => 0
    height := 5 }

/-- Concrete view at the extreme height `2^64 - 1` holding the same
zero-start contract. -/
def exStateMax : State :=
  { siacoinOutputs := [], siafundOutputs := []
    fileContracts := [(5, exFCZero)]
    currentPath := fun _ => 0
    height := 2 ^ 64 - 1 }

theorem C9_zero_start_contract_rejected_witness :
    storageProofSegment exEnv exStateZero exSP.parentID =
      .error "no block found at contract trigger block height" ∧
    ∃ e, validStorageProofs exEnv exStateZero exTxnProof = .error e :=
  C9_zero_start_contract_rejected exEnv exStateZero exTxnProof exSP exFCZero
    (by decide) (by decide) (by decide) (by decide)

/-- C9 counterexample: at current height exactly `2^64 - 1` the claimed
"always exceeds S.height()" fails; the segment computation succeeds (the
path is indexed) and the storage proof can validate. -/
theorem C9_counterexample_height_max :
    storageProofSegment exEnv exStateMax 5 = .ok 0 ∧
    validStorageProofs exEnv exStateMax exTxnProof = .ok () := by
  constructor <;> rfl

/-! Contract-manager persistence
(src/modules/host/contractmanager/persist.go). -/

/-- Modelled from the spec: `storageFolderGranularity`, the number of slots
covered by each 64-bit usage word. -/
def storageFolderGranularity : Nat := 64

/-- Embedding of the constant `sectorMetadataDiskSize = 14`: 12 bytes of
sector ID followed by a 2-byte little-endian reference count. -/
def sectorMetadataDiskSize : Nat := 14

/-- Modelled from the spec: `usageSectors(usage)` returns the sorted list
of set bit positions; bit `k` of word `w` marks slot `64*w + k`. -/
def usageSectors (usage : List Nat) : List Nat :=
  (List.range (usage.length * storageFolderGranularity)).filter
    (fun k => (usage.getD (k / 64) 0).testBit (k % 64))

/-- Modelled from the spec: `setUsage` sets bit `k` of the usage bitmap,
writing the affected word in place. -/
def setUsage (usage : List Nat) (k : Nat) : List Nat :=
  usage.set (k / 64)
    (if (usage.getD (k / 64) 0).testBit (k % 64) then usage.getD (k / 64) 0
     else usage.getD (k / 64) 0 + 2 ^ (k % 64))

/-- Modelled from the spec: `clearUsage` clears bit `k` of the usage
bitmap, writing the affected word in place. -/
def clearUsage (usage : List Nat) (k : Nat) : List Nat :=
  usage.set (k / 64)
    (if (usage.getD (k / 64) 0).testBit (k % 64) then usage.getD (k / 64) 0 - 2 ^ (k % 64)
     else usage.getD (k / 64) 0)

/-- Embedding of the in-memory `storageFolder`: index, path, usage bitmap,
the values of the `queuedSectors` map (queued sector indices), the
contents of the folder's metadata file, and the loaded-sector counter. -/
structure StorageFolder where
  index : Nat
  path : String
  usage : List Nat
  queuedSectors : List Nat
  metadataBytes : List Nat
  sectors : Nat := 0
  deriving DecidableEq, Repr, Inhabited

/-- Embedding of `savedStorageFolder` (persist.go lines 17-21). -/
structure SavedStorageFolder where
  index : Nat
  path : String
  usage : List Nat
  deriving DecidableEq, Repr, Inhabited

/-- Embedding of `savedSettings` the record (persist.go lines 25-28). -/
structure SavedSettings where
  sectorSalt : Nat
  storageFolders : List SavedStorageFolder
  deriving DecidableEq, Repr, Inhabited

/-- Embedding of `sectorLocation`: slot index, folder index, reference
count. -/
structure SectorLocation where
  index : Nat
  storageFolder : Nat
  count : Nat
  deriving DecidableEq, Repr, Inhabited

/-- Embedding of the `ContractManager` state touched by persist.go. -/
structure ContractManager where
  sectorSalt : Nat
  storageFolders : List StorageFolder
  sectorLocations : List (Nat × SectorLocation)
  deriving DecidableEq, Repr, Inhabited

/-- Embedding of `storageFolder.savedStorageFolder` (persist.go lines
32-38). In Go the `Usage` field copies only the slice header, so it shares
the folder's backing array. -/
def savedStorageFolderOf (sf : StorageFolder) : SavedStorageFolder :=
  { index := sf.index, path := sf.path, usage := sf.usage }

/-- Per-folder step of `ContractManager.savedSettings` (persist.go lines
126-139): clear the queued sectors' usage bits, convert the folder with
`savedStorageFolder`, then re-set the bits. Because the Go conversion
copies only the slice header, the snapshot's `Usage` shares the folder's
backing array, and the subsequent `setUsage` writes go through it; by the
time the caller reads or serializes the snapshot it therefore observes the
restored bitmap. The model returns that observed snapshot together with
the folder's final state. -/
def savedSettingsFolder (sf : StorageFolder) : SavedStorageFolder × StorageFolder :=
  let cleared := sf.queuedSectors.foldl clearUsage sf.usage
  let restored := sf.queuedSectors.foldl setUsage cleared
  let sfFinal := { sf with usage := restored }
  (savedStorageFolderOf sfFinal, sfFinal)

/-- Embedding of `ContractManager.savedSettings` (persist.go lines
122-141), returning the snapshot as observed by the caller together with
the contract manager's state after the call. -/
def savedSettings (cm : ContractManager) : SavedSettings × ContractManager :=
  ({ sectorSalt := cm.sectorSalt
     storageFolders := cm.storageFolders.map (fun sf => (savedSettingsFolder sf).1) },
   { cm with storageFolders := cm.storageFolders.map (fun sf => (savedSettingsFolder sf).2) })

/-- Little-endian interpretation of a byte list. -/
def fromLEBytes : List Nat → Nat
  | [] => 0
  | b :: rest => b + 256 * fromLEBytes rest

/-- Modelled from the spec: `readFullMetadata` reads the folder's whole
sector-metadata table (`numSectors` records of `sectorMetadataDiskSize`
bytes), failing when the file is too short. -/
def readFullMetadata (sf : StorageFolder) (numSectors : Nat) : Except String (List Nat) :=
  if numSectors * sectorMetadataDiskSize ≤ sf.metadataBytes.length then .ok sf.metadataBytes
  else .error "metadata read error"

/-- The sector ID stored at slot `k`: the 12 bytes at offset
`sectorMetadataDiskSize * k`. -/
def sectorIDAt (bytes : List Nat) (k : Nat) : Nat :=
  fromLEBytes ((bytes.drop (sectorMetadataDiskSize * k)).take 12)

/-- The reference count stored at slot `k`: the 2 bytes at offset
`sectorMetadataDiskSize * k + 12`, little-endian. -/
def sectorCountAt (bytes : List Nat) (k : Nat) : Nat :=
  fromLEBytes ((bytes.drop (sectorMetadataDiskSize * k + 12)).take 2)

/-- Per-folder step of `ContractManager.loadSectorLocations` (persist.go
lines 90-117): read the metadata table (skipping the folder on failure)
and enter a sector location for every in-use slot, counting the sectors. -/
def loadSectorLocationsFolder (locs : List (Nat × SectorLocation)) (sf : StorageFolder) :
    List (Nat × SectorLocation) × StorageFolder :=
  match readFullMetadata sf (sf.usage.length * storageFolderGranularity) with
  | .error _ => (locs, sf)
  | .ok bytes =>
    (usageSectors sf.usage).foldl
      (fun acc k =>
        (aput acc.1 (sectorIDAt bytes k)
           { index := k, storageFolder := sf.index, count := sectorCountAt bytes k },
         { acc.2 with sectors := acc.2.sectors + 1 }))
      (locs, sf)

/-- Embedding of `ContractManager.loadSectorLocations` (persist.go lines
88-118). -/
def loadSectorLocations (cm : ContractManager) : ContractManager :=
  let r := cm.storageFolders.foldl
    (fun acc sf =>
      let p := loadSectorLocationsFolder acc.1 sf
      (p.1, acc.2 ++ [p.2]))
    (cm.sectorLocations, ([] : List StorageFolder))
  { cm with sectorLocations := r.1, storageFolders := r.2 }

/-- The association-list entries a folder contributes to the sector
location map, in slot order (empty when its metadata read fails). -/
def entriesOf (sf : StorageFolder) : List (Nat × SectorLocation) :=
  match readFullMetadata sf (sf.usage.length * storageFolderGranularity) with
  | .error _ => []
  | .ok bytes =>
    (usageSectors sf.usage).map
      (fun k => (sectorIDAt bytes k,
        { index := k, storageFolder := sf.index, count := sectorCountAt bytes k }))

/-! Claim C4: the savedSettings snapshot and the queued-sector bits. -/

/-- Concrete storage folder whose single in-use slot 0 is also queued. -/
def exFolderQ : StorageFolder :=
  { index := 0, path := "", usage := [1], queuedSectors := [0], metadataBytes := [] }

/-- Concrete contract manager holding that folder. -/
def exCMQ : ContractManager :=
  { sectorSalt := 0, storageFolders := [exFolderQ], sectorLocations := [] }

/-- C4 (code bug, evaluated at the failing input): with one folder whose
slot 0 is in use and queued, the snapshot produced by `savedSettings`
still has usage word 1 — bit 0 set, slot 0 listed — because the snapshot's
`Usage` slice shares the folder's backing array, which is restored before
the caller can serialize it. The claim (and the spec) require the
persisted bitmap to have the queued bit cleared (word 0). The in-memory
bitmap is restored to its original value, as claimed. -/
theorem C4_saved_settings_queued_bit_not_cleared :
    (savedSettings exCMQ).1.storageFolders.map SavedStorageFolder.usage = [[1]] ∧
    usageSectors ((savedSettings exCMQ).1.storageFolders.getD 0 default).usage = [0] ∧
    (savedSettings exCMQ).2.storageFolders.map StorageFolder.usage =
      exCMQ.storageFolders.map StorageFolder.usage := by
  refine ⟨?_, ?_, ?_⟩ <;> decide

/-! Claim C8: reloading sector locations from the metadata table. -/

/-- Looking up the key just inserted. -/
theorem alookup_aput_self {α : Type} (l : List (Nat × α)) (k : Nat) (v : α) :
    alookup (aput l k v) k = some v := by
  induction l with
  | nil => simp [aput, alookup]
  | cons p rest ih =>
    obtain ⟨pk, pv⟩ := p
    simp only [aput]
    by_cases hp : pk = k
    · rw [if_pos hp]
      simp [alookup]
    · rw [if_neg hp]
      simp only [alookup]
      rw [if_neg hp]
      exact ih

/-- Inserting a different key preserves a lookup. -/
theorem alookup_aput_ne {α : Type} (l : List (Nat × α)) (k k' : Nat) (v : α)
    (h : k' ≠ k) : alookup (aput l k' v) k = alookup l k := by
  induction l with
  | nil => simp [aput, alookup, h]
  | cons p rest ih =>
    obtain ⟨pk, pv⟩ := p
    simp only [aput]
    by_cases hp : pk = k'
    · rw [if_pos hp]
      simp only [alookup]
      rw [if_neg h, if_neg (by rw [hp]; exact h)]
    · rw [if_neg hp]
      simp only [alookup]
      by_cases hk : pk = k
      · rw [if_pos hk, if_pos hk]
      · rw [if_neg hk, if_neg hk]
        exact ih

/-- Folding a sequence of upserts all of whose entries for a key carry the
same value, at least one of which occurs (or the map already holds it),
yields that value for the key. -/
theorem alookup_foldl_aput {α : Type} [DecidableEq α] (id : Nat) (v : α) :
    ∀ (L : List (Nat × α)) (m : List (Nat × α)),
      (∀ p ∈ L, p.1 = id → p.2 = v) →
      ((id, v) ∈ L ∨ alookup m id = some v) →
      alookup (L.foldl (fun m p => aput m p.1 p.2) m) id = some v := by
  intro L
  induction L with
  | nil =>
    intro m _ hm
    rcases hm with h | h
    · simp at h
    · simpa using h
  | cons p rest ih =>
    intro m hall hm
    simp only [List.foldl_cons]
    by_cases hp : p.1 = id
    · refine ih (aput m p.1 p.2) (fun q hq hq1 => hall q (by simp [hq]) hq1) (Or.inr ?_)
      have hv : p.2 = v := hall p (by simp) hp
      rw [hp, hv]
      exact alookup_aput_self m id v
    · rcases hm with h | h
      · rcases List.mem_cons.mp h with heq | hmem
        · exact absurd (congrArg Prod.fst heq).symm hp
        · exact ih (aput m p.1 p.2) (fun q hq hq1 => hall q (by simp [hq]) hq1) (Or.inl hmem)
      · refine ih (aput m p.1 p.2) (fun q hq hq1 => hall q (by simp [hq]) hq1) (Or.inr ?_)
        rw [alookup_aput_ne m id p.1 p.2 hp]
        exact h

/-- The map component of the per-folder fold ignores the sector counter
threaded alongside it. -/
theorem loadFolderFold_fst (bytes : List Nat) (idx : Nat) :
    ∀ (ks : List Nat) (m : List (Nat × SectorLocation)) (sf : StorageFolder),
      ((ks.foldl (fun acc k =>
          (aput acc.1 (sectorIDAt bytes k)
             { index := k, storageFolder := idx, count := sectorCountAt bytes k },
           { acc.2 with sectors := acc.2.sectors + 1 })) (m, sf)).1)
      = ks.foldl (fun m k => aput m (sectorIDAt bytes k)
          { index := k, storageFolder := idx, count := sectorCountAt bytes k }) m := by
  intro ks
  induction ks with
  | nil => intro m sf; rfl
  | cons k rest ih => intro m sf; exact ih _ _

/-- The sector-location component of the per-folder load step is the fold
of that folder's entries. -/
theorem loadSectorLocationsFolder_fst (locs : List (Nat × SectorLocation))
    (sf : StorageFolder) :
    (loadSectorLocationsFolder locs sf).1 =
      (entriesOf sf).foldl (fun m p => aput m p.1 p.2) locs := by
  unfold loadSectorLocationsFolder entriesOf
  cases hr : readFullMetadata sf (sf.usage.length * storageFolderGranularity) with
  | error e => rfl
  | ok bytes =>
    try dsimp only
    rw [List.foldl_map]
    exact loadFolderFold_fst bytes sf.index (usageSectors sf.usage) locs sf

/-- The map component of the whole-manager fold is the fold of every
folder's entries. -/
theorem loadFolders_fst :
    ∀ (folders : List StorageFolder) (locs : List (Nat × SectorLocation))
      (acc : List StorageFolder),
      ((folders.foldl (fun acc sf =>
          let p := loadSectorLocationsFolder acc.1 sf
          (p.1, acc.2 ++ [p.2])) (locs, acc)).1)
      = (folders.flatMap entriesOf).foldl (fun m p => aput m p.1 p.2) locs := by
  intro folders
  induction folders with
  | nil => intro locs acc; rfl
  | cons sf rest ih =>
    intro locs acc
    simp only [List.foldl_cons, List.flatMap_cons, List.foldl_append]
    rw [ih]
    rw [loadSectorLocationsFolder_fst]

/-- The sector-location map built by `loadSectorLocations` is the fold of
every folder's entries over the initial map. -/
theorem loadSectorLocations_locs (cm : ContractManager) :
    (loadSectorLocations cm).sectorLocations =
      (cm.storageFolders.flatMap entriesOf).foldl
        (fun m p => aput m p.1 p.2) cm.sectorLocations := by
  unfold loadSectorLocations
  exact loadFolders_fst cm.storageFolders cm.sectorLocations []

/-- C8: for every folder of the contract manager and every slot whose
usage bit is set, provided the folder's metadata read succeeds and no
other in-use slot stores the same sector ID with a different record,
`loadSectorLocations` enters the mapping
`id -> {storageFolder := folder index, index := slot, count := count}`,
where the ID is the 12 bytes at offset `sectorMetadataDiskSize * slot` and
the count the following 2 little-endian bytes. -/
theorem C8_load_sector_locations (cm : ContractManager) (sf : StorageFolder)
    (k : Nat) (bytes : List Nat)
    (hsf : sf ∈ cm.storageFolders)
    (hread : readFullMetadata sf (sf.usage.length * storageFolderGranularity) = .ok bytes)
    (hk : k ∈ usageSectors sf.usage)
    (huniq : ∀ p ∈ cm.storageFolders.flatMap entriesOf,
      p.1 = sectorIDAt bytes k →
      p.2 = SectorLocation.mk k sf.index (sectorCountAt bytes k)) :
    alookup (loadSectorLocations cm).sectorLocations (sectorIDAt bytes k) =
      some (SectorLocation.mk k sf.index (sectorCountAt bytes k)) := by
  rw [loadSectorLocations_locs]
  apply alookup_foldl_aput
  · exact huniq
  · left
    apply List.mem_flatMap.mpr
    refine ⟨sf, hsf, ?_⟩
    unfold entriesOf
    rw [hread]
    exact List.mem_map.mpr ⟨k, hk, rfl⟩

/-- Concrete metadata table: slot 42 stores sector ID 9 with count 3. -/
def exBytes8 : List Nat :=
  List.replicate (14 * 42) 0 ++
    ([9, 0, 0, 0, 0, 0, 0, 0, 0, 0, 0, 0] ++ [3, 0]) ++
    List.replicate (14 * 21) 0

/-- Concrete storage folder with only slot 42 in use. -/
def exFolder8 : StorageFolder :=
  { index := 1, path := "", usage := [2 ^ 42], queuedSectors := []
    metadataBytes := exBytes8 }

/-- Concrete contract manager before restart-time loading. -/
def exCM8 : ContractManager :=
  { sectorSalt := 0, storageFolders := [exFolder8], sectorLocations := [] }

set_option maxRecDepth 100000 in
theorem C8_load_sector_locations_witness :
    alookup (loadSectorLocations exCM8).sectorLocations (sectorIDAt exBytes8 42) =
      some (SectorLocation.mk 42 exFolder8.index (sectorCountAt exBytes8 42)) :=
  C8_load_sector_locations exCM8 exFolder8 42 exBytes8
    (by decide) (by decide) (by decide) (by decide)

/-! Wallet transaction builder
(src/modules/wallet/transactionbuilder.go). -/

/-- Builder-level errors (the named error values of the wallet and
modules packages). -/
inductive WErr where
  | dustOutput
  | outputTimelock
  | spendHeightTooHigh
  | lowBalance
  | incompleteTransactions
  | builderAlreadySigned
  | cannotSignInput
  deriving DecidableEq, Repr, Inhabited

/-- Embedding of `spendableKey`: the unlock conditions and secret keys the
wallet holds for one address. -/
structure SpendableKey where
  unlockConditions : UnlockConditions
  secretKeys : List Nat
  deriving DecidableEq, Repr, Inhabited

/-- External collaborators of the builder, none of which live under src/:
canonical hashing of unlock conditions (`UnlockHash()`), public-key
derivation (`SecretKey.PublicKey()`), sig hashing (`Transaction.SigHash`),
signing (`crypto.SignHash`), output-ID derivation
(`Transaction.SiacoinOutputID` and `Transaction.SiafundOutputID`), the
network constant `RespendTimeout`, and the primary-seed address generator
(modelled from the spec: the wallet derives the next address from its
primary seed by derivation index). -/
structure WEnv where
  ucHash : UnlockConditions → Nat
  pubOf : Nat → Nat
  sigHash : Transaction → Nat → Nat
  signHash : Nat → Nat → Nat
  scoID : Transaction → Nat → Nat
  sfoID : Transaction → Nat → Nat
  respendTimeout : Nat
  addrGen : Nat → UnlockConditions

/-- Embedding of the wallet state read and written by the builder: the
"recently spent" table (`OutputID -> spend height`), the key map, the
primary-seed derivation index, the siafund-output bucket in cursor order,
the consensus height, the dust threshold, and the value-sorted siacoin
output list (modelled from the spec: `getSortedOutputs` returns the
wallet-owned confirmed plus unconfirmed outputs sorted descending by
value; `FundSiacoins` assembles the same list inline). -/
structure WalletState where
  spentOutputs : List (Nat × Nat)
  keys : List (Nat × SpendableKey)
  seedIndex : Nat
  siafundOutputs : List (Nat × SiafundOutput)
  consensusHeight : Nat
  dustThreshold : Nat
  sortedOutputs : List (Nat × SiacoinOutput)
  deriving DecidableEq, Repr, Inhabited

/-- Go map read with zero-value default: `w.keys[uh]`. -/
def keysD (w : WalletState) (uh : Nat) : SpendableKey :=
  (alookup w.keys uh).getD default

/-- Embedding of the `transactionBuilder` struct (all fields except the
wallet pointer, which the model passes explicitly). -/
structure Builder where
  parents : List Transaction := []
  signed : Bool := false
  transaction : Transaction := {}
  newParents : List Nat := []
  siacoinInputs : List Nat := []
  siafundInputs : List Nat := []
  transactionSignatures : List Nat := []
  deriving DecidableEq, Repr, Inhabited

/-- Embedding of `Wallet.checkOutput` (transactionbuilder.go lines
96-114): dust check, then the respend check
(`spendHeight + RespendTimeout > currentHeight`, a `uint64` sum, applied
only when a spent-output entry exists), then the timelock of the wallet
key's unlock conditions. -/
def checkOutput (env : WEnv) (w : WalletState) (currentHeight : Nat)
    (id : Nat) (output : SiacoinOutput) : Except WErr Unit :=
  if output.value < w.dustThreshold then .error .dustOutput
  else
    match alookup w.spentOutputs id with
    | some spendHeight =>
      if (spendHeight + env.respendTimeout) % 2 ^ 64 > currentHeight then
        .error .spendHeightTooHigh
      else if currentHeight < (keysD w output.unlockHash).unlockConditions.timelock then
        .error .outputTimelock
      else .ok ()
    | none =>
      if currentHeight < (keysD w output.unlockHash).unlockConditions.timelock then
        .error .outputTimelock
      else .ok ()

/-- Embedding of `calculateAmountFromOutputs` (lines 116-128). -/
def calculateAmountFromOutputs (outputs : List SiacoinOutput) (fee : Nat) : Nat :=
  (outputs.foldl (fun acc o => acc + o.value) 0) + (if 0 < fee then fee else 0)

/-- Modelled from the spec: `nextPrimarySeedAddress` derives the address
at the next derivation index and records the advanced index. -/
def nextPrimarySeedAddress (env : WEnv) (w : WalletState) :
    UnlockConditions × WalletState :=
  (env.addrGen w.seedIndex, { w with seedIndex := w.seedIndex + 1 })

/-- Marking outputs spent: one `dbPutSpentOutput` per ID at the given
height. -/
def putSpentOutputs (w : WalletState) (ids : List Nat) (height : Nat) : WalletState :=
  { w with spentOutputs := ids.foldl (fun m id => aput m id height) w.spentOutputs }

/-- Embedding of `types.FullCoveredFields`: covered fields with the
whole-transaction flag set. -/
def FullCoveredFields : CoveredFields := { wholeTransaction := true }

/-- Recursion of `addSignatures` (lines 54-93): walk the public keys in
order, sign with the first secret key whose derived public key matches,
and stop once the running total reaches `SignaturesRequired` (checked at
the end of every outer iteration). The signature bytes come from the
external `SigHash`/`SignHash` primitives. -/
def addSignaturesLoop (env : WEnv) (cf : CoveredFields) (parentID : Nat)
    (spendKey : SpendableKey) (sigsRequired : Nat) :
    List (Nat × SiaPublicKey) → Transaction → List Nat → Nat → Transaction × List Nat
  | [], txn, newSigIndices, _ => (txn, newSigIndices)
  | (i, siaPubKey) :: rest, txn, newSigIndices, totalSignatures =>
    match spendKey.secretKeys.find? (fun sk => env.pubOf sk == siaPubKey.key) with
    | none =>
      if totalSignatures = sigsRequired then (txn, newSigIndices)
      else addSignaturesLoop env cf parentID spendKey sigsRequired rest txn
        newSigIndices totalSignatures
    | some sk =>
      let sig : TransactionSignature :=
        { parentID := parentID, coveredFields := cf, publicKeyIndex := i, signature := 0 }
      let newSigIndices' := newSigIndices ++ [txn.transactionSignatures.length]
      let txn' := { txn with transactionSignatures := txn.transactionSignatures ++ [sig] }
      let sigIndex := txn'.transactionSignatures.length - 1
      let encodedSig := env.signHash (env.sigHash txn' sigIndex) sk
      let txn'' := { txn' with transactionSignatures :=
          txn'.transactionSignatures.set sigIndex { sig with signature := encodedSig } }
      if totalSignatures + 1 = sigsRequired then (txn'', newSigIndices')
      else addSignaturesLoop env cf parentID spendKey sigsRequired rest txn''
        newSigIndices' (totalSignatures + 1)

/-- Embedding of `addSignatures` (lines 54-93), returning the transaction
with the appended signatures together with the new signature indices. -/
def addSignatures (env : WEnv) (txn : Transaction) (cf : CoveredFields)
    (uc : UnlockConditions) (parentID : Nat) (spendKey : SpendableKey) :
    Transaction × List Nat :=
  addSignaturesLoop env cf parentID spendKey uc.signaturesRequired uc.publicKeys.enum txn [] 0

/-- Input-selection loop of `FundSiacoinsForOutputs` (lines 173-199):
check each candidate output, skipping unusable ones (adding respend-failed
values to the potential fund), append usable ones to the transaction as
inputs, and stop once the fund covers the amount. -/
def fundOutputsScan (env : WEnv) (w : WalletState) (consensusHeight amount : Nat) :
    List (Nat × SiacoinOutput) → Builder → Nat → Nat → List Nat →
      Builder × Nat × Nat × List Nat
  | [], b, fund, potentialFund, spentScoids => (b, fund, potentialFund, spentScoids)
  | (scoid, sco) :: rest, b, fund, potentialFund, spentScoids =>
    match checkOutput env w consensusHeight scoid sco with
    | .error e =>
      if e = .spendHeightTooHigh then
        fundOutputsScan env w consensusHeight amount rest b fund
          (potentialFund + sco.value) spentScoids
      else
        fundOutputsScan env w consensusHeight amount rest b fund potentialFund spentScoids
    | .ok () =>
      let sci : SiacoinInput :=
        { parentID := scoid
          unlockConditions := (keysD w sco.unlockHash).unlockConditions }
      let b' := { b with
        siacoinInputs := b.siacoinInputs ++ [b.transaction.siacoinInputs.length]
        transaction := { b.transaction with
          siacoinInputs := b.transaction.siacoinInputs ++ [sci] } }
      if fund + sco.value ≥ amount then
        (b', fund + sco.value, potentialFund + sco.value, spentScoids ++ [scoid])
      else
        fundOutputsScan env w consensusHeight amount rest b' (fund + sco.value)
          (potentialFund + sco.value) (spentScoids ++ [scoid])

/-- Embedding of `transactionBuilder.FundSiacoinsForOutputs` (lines
138-234), returning the result together with the builder and wallet state
after the call; on the balance-error paths the appended miner fee and
inputs remain in place. -/
def FundSiacoinsForOutputs (env : WEnv) (w : WalletState) (b : Builder)
    (outputs : List SiacoinOutput) (fee : Nat) :
    Except WErr Unit × Builder × WalletState :=
  let amount := calculateAmountFromOutputs outputs fee
  let b := if 0 < fee then
      { b with transaction :=
        { b.transaction with minerFees := b.transaction.minerFees ++ [fee] } }
    else b
  let scan := fundOutputsScan env w w.consensusHeight amount w.sortedOutputs b 0 0 []
  let b := scan.1
  let fund := scan.2.1
  let potentialFund := scan.2.2.1
  let spentScoids := scan.2.2.2
  if potentialFund ≥ amount ∧ fund < amount then (.error .incompleteTransactions, b, w)
  else if fund < amount then (.error .lowBalance, b, w)
  else
    let b := { b with transaction := { b.transaction with
        siacoinOutputs := b.transaction.siacoinOutputs ++ outputs } }
    let bw :=
      if amount ≠ fund then
        let r := nextPrimarySeedAddress env w
        ({ b with transaction := { b.transaction with siacoinOutputs :=
            b.transaction.siacoinOutputs ++
              [{ value := fund - amount, unlockHash := env.ucHash r.1 }] } }, r.2)
      else (b, w)
    (.ok (), bw.1, putSpentOutputs bw.2 spentScoids bw.2.consensusHeight)

/-- Input-selection loop of `FundSiacoins` (lines 288-313): like the
`FundSiacoinsForOutputs` loop but appending the inputs to the parent
transaction. -/
def fundSiacoinsScan (env : WEnv) (w : WalletState) (consensusHeight amount : Nat) :
    List (Nat × SiacoinOutput) → Transaction → Nat → Nat → List Nat →
      Transaction × Nat × Nat × List Nat
  | [], parentTxn, fund, potentialFund, spentScoids =>
    (parentTxn, fund, potentialFund, spentScoids)
  | (scoid, sco) :: rest, parentTxn, fund, potentialFund, spentScoids =>
    match checkOutput env w consensusHeight scoid sco with
    | .error e =>
      if e = .spendHeightTooHigh then
        fundSiacoinsScan env w consensusHeight amount rest parentTxn fund
          (potentialFund + sco.value) spentScoids
      else
        fundSiacoinsScan env w consensusHeight amount rest parentTxn fund
          potentialFund spentScoids
    | .ok () =>
      let sci : SiacoinInput :=
        { parentID := scoid
          unlockConditions := (keysD w sco.unlockHash).unlockConditions }
      let parentTxn' := { parentTxn with
        siacoinInputs := parentTxn.siacoinInputs ++ [sci] }
      if fund + sco.value ≥ amount then
        (parentTxn', fund + sco.value, potentialFund + sco.value, spentScoids ++ [scoid])
      else
        fundSiacoinsScan env w consensusHeight amount rest parentTxn' (fund + sco.value)
          (potentialFund + sco.value) (spentScoids ++ [scoid])

/-- The parent-signing loop of `FundSiacoins` (lines 348-350): add
signatures to the parent transaction for each of its siacoin inputs. -/
def signParentInputsLoop (env : WEnv) (w : WalletState) :
    List SiacoinInput → Transaction → Transaction
  | [], parentTxn => parentTxn
  | sci :: rest, parentTxn =>
    signParentInputsLoop env w rest
      (addSignatures env parentTxn FullCoveredFields sci.unlockConditions
        sci.parentID (keysD w (env.ucHash sci.unlockConditions))).1

/-- Embedding of `transactionBuilder.FundSiacoins` (lines 240-376). -/
def FundSiacoins (env : WEnv) (w : WalletState) (b : Builder) (amount : Nat) :
    Except WErr Unit × Builder × WalletState :=
  let scan := fundSiacoinsScan env w w.consensusHeight amount w.sortedOutputs {} 0 0 []
  let parentTxn := scan.1
  let fund := scan.2.1
  let potentialFund := scan.2.2.1
  let spentScoids := scan.2.2.2
  if potentialFund ≥ amount ∧ fund < amount then (.error .incompleteTransactions, b, w)
  else if fund < amount then (.error .lowBalance, b, w)
  else
    let r1 := nextPrimarySeedAddress env w
    let parentUnlockConditions := r1.1
    let w := r1.2
    let parentTxn := { parentTxn with siacoinOutputs := parentTxn.siacoinOutputs ++
      [{ value := amount, unlockHash := env.ucHash parentUnlockConditions }] }
    let tw :=
      if amount ≠ fund then
        let r2 := nextPrimarySeedAddress env w
        ({ parentTxn with siacoinOutputs := parentTxn.siacoinOutputs ++
          [{ value := fund - amount, unlockHash := env.ucHash r2.1 }] }, r2.2)
      else (parentTxn, w)
    let parentTxn := signParentInputsLoop env tw.2 tw.1.siacoinInputs tw.1
    let w := putSpentOutputs tw.2 [env.scoID parentTxn 0] tw.2.consensusHeight
    let newInput : SiacoinInput :=
      { parentID := env.scoID parentTxn 0, unlockConditions := parentUnlockConditions }
    let b := { b with
      newParents := b.newParents ++ [b.parents.length]
      parents := b.parents ++ [parentTxn]
      siacoinInputs := b.siacoinInputs ++ [b.transaction.siacoinInputs.length]
      transaction := { b.transaction with
        siacoinInputs := b.transaction.siacoinInputs ++ [newInput] } }
    (.ok (), b, putSpentOutputs w spentScoids w.consensusHeight)

/-- Input-selection loop of `FundSiafunds` (lines 398-446): respend check
against `max(consensusHeight - RespendTimeout, 0)` with a missing entry
read as spend height 0, then the timelock check, then a fresh claim
address per selected output. Only the seed index part of the wallet state
changes inside the loop, so it is threaded explicitly. -/
def fundSiafundsScan (env : WEnv) (w : WalletState) (consensusHeight amount : Nat) :
    List (Nat × SiafundOutput) → Nat → Transaction → Nat → Nat → List Nat →
      Nat × Transaction × Nat × Nat × List Nat
  | [], seedIndex, parentTxn, fund, potentialFund, spentSfoids =>
    (seedIndex, parentTxn, fund, potentialFund, spentSfoids)
  | (sfoid, sfo) :: rest, seedIndex, parentTxn, fund, potentialFund, spentSfoids =>
    let spendHeight := (alookup w.spentOutputs sfoid).getD 0
    let allowedHeight :=
      if consensusHeight < env.respendTimeout then 0
      else consensusHeight - env.respendTimeout
    if spendHeight > allowedHeight then
      fundSiafundsScan env w consensusHeight amount rest seedIndex parentTxn fund
        (potentialFund + sfo.value) spentSfoids
    else if consensusHeight < (keysD w sfo.unlockHash).unlockConditions.timelock then
      fundSiafundsScan env w consensusHeight amount rest seedIndex parentTxn fund
        potentialFund spentSfoids
    else
      let sfi : SiafundInput :=
        { parentID := sfoid
          unlockConditions := (keysD w sfo.unlockHash).unlockConditions
          claimUnlockHash := env.ucHash (env.addrGen seedIndex) }
      let parentTxn' := { parentTxn with siafundInputs := parentTxn.siafundInputs ++ [sfi] }
      if fund + sfo.value ≥ amount then
        (seedIndex + 1, parentTxn', fund + sfo.value, potentialFund + sfo.value,
          spentSfoids ++ [sfoid])
      else
        fundSiafundsScan env w consensusHeight amount rest (seedIndex + 1) parentTxn'
          (fund + sfo.value) (potentialFund + sfo.value) (spentSfoids ++ [sfoid])

/-- The parent-signing loop of `FundSiafunds` (lines 480-482). -/
def signParentSiafundInputsLoop (env : WEnv) (w : WalletState) :
    List SiafundInput → Transaction → Transaction
  | [], parentTxn => parentTxn
  | sfi :: rest, parentTxn =>
    signParentSiafundInputsLoop env w rest
      (addSignatures env parentTxn FullCoveredFields sfi.unlockConditions
        sfi.parentID (keysD w (env.ucHash sfi.unlockConditions))).1

/-- Embedding of `transactionBuilder.FundSiafunds` (lines 382-507). Note
that unlike `FundSiacoins` it never marks the parent transaction's
aggregated output as spent. -/
def FundSiafunds (env : WEnv) (w : WalletState) (b : Builder) (amount : Nat) :
    Except WErr Unit × Builder × WalletState :=
  let scan := fundSiafundsScan env w w.consensusHeight amount w.siafundOutputs
    w.seedIndex {} 0 0 []
  let w := { w with seedIndex := scan.1 }
  let parentTxn := scan.2.1
  let fund := scan.2.2.1
  let potentialFund := scan.2.2.2.1
  let spentSfoids := scan.2.2.2.2
  if potentialFund ≥ amount ∧ fund < amount then (.error .incompleteTransactions, b, w)
  else if fund < amount then (.error .lowBalance, b, w)
  else
    let r1 := nextPrimarySeedAddress env w
    let parentUnlockConditions := r1.1
    let w := r1.2
    let parentTxn := { parentTxn with siafundOutputs := parentTxn.siafundOutputs ++
      [{ value := amount, unlockHash := env.ucHash parentUnlockConditions, claimStart := 0 }] }
    let tw :=
      if amount ≠ fund then
        let r2 := nextPrimarySeedAddress env w
        ({ parentTxn with siafundOutputs := parentTxn.siafundOutputs ++
          [{ value := fund - amount, unlockHash := env.ucHash r2.1, claimStart := 0 }] }, r2.2)
      else (parentTxn, w)
    let parentTxn := signParentSiafundInputsLoop env tw.2 tw.1.siafundInputs tw.1
    let r3 := nextPrimarySeedAddress env tw.2
    let newInput : SiafundInput :=
      { parentID := env.sfoID parentTxn 0
        unlockConditions := parentUnlockConditions
        claimUnlockHash := env.ucHash r3.1 }
    let b := { b with
      newParents := b.newParents ++ [b.parents.length]
      parents := b.parents ++ [parentTxn]
      siafundInputs := b.siafundInputs ++ [b.transaction.siafundInputs.length]
      transaction := { b.transaction with
        siafundInputs := b.transaction.siafundInputs ++ [newInput] } }
    (.ok (), b, putSpentOutputs r3.2 spentSfoids r3.2.consensusHeight)

/-- Embedding of `transactionBuilder.Drop` (lines 629-650): delete the
spent-output entry of every siacoin input's parent ID across the parents
and the transaction, then reset the builder's fields. -/
def Drop (w : WalletState) (b : Builder) : WalletState × Builder :=
  let txns := b.parents ++ [b.transaction]
  let spent := txns.foldl
    (fun m txn => txn.siacoinInputs.foldl (fun m sci => adel m sci.parentID) m)
    w.spentOutputs
  ({ w with spentOutputs := spent },
   { parents := [], signed := false, transaction := {},
     newParents := [], siacoinInputs := [], siafundInputs := [],
     transactionSignatures := [] })

/-- Covered-fields construction in `Sign` (lines 670-707): either the
whole-transaction flag or explicit index lists, with the transaction
signature indices always appended explicitly. -/
def buildCoveredFields (txn : Transaction) (wholeTransaction : Bool) : CoveredFields :=
  let cf : CoveredFields :=
    if wholeTransaction then { wholeTransaction := true }
    else
      { minerFees := List.range txn.minerFees.length
        siacoinInputs := List.range txn.siacoinInputs.length
        siacoinOutputs := List.range txn.siacoinOutputs.length
        fileContracts := List.range txn.fileContracts.length
        fileContractRevisions := List.range txn.fileContractRevisions.length
        storageProofs := List.range txn.storageProofs.length
        siafundInputs := List.range txn.siafundInputs.length
        siafundOutputs := List.range txn.siafundOutputs.length
        arbitraryData := List.range txn.arbitraryData.length }
  { cf with transactionSignatures := List.range txn.transactionSignatures.length }

/-- Signature loop of `Sign` over the fund-added siacoin inputs (lines
713-722): look up the wallet key per input, fail when it is missing, else
add signatures and mark the builder signed (after every processed input,
whatever the number of signatures added). -/
def signSiacoinInputsLoop (env : WEnv) (w : WalletState) (cf : CoveredFields) :
    List Nat → Builder → Except WErr Unit × Builder
  | [], b => (.ok (), b)
  | inputIndex :: rest, b =>
    match alookup w.keys
        (env.ucHash (b.transaction.siacoinInputs.getD inputIndex default).unlockConditions) with
    | none => (.error .cannotSignInput, b)
    | some key =>
      let input := b.transaction.siacoinInputs.getD inputIndex default
      let r := addSignatures env b.transaction cf input.unlockConditions input.parentID key
      signSiacoinInputsLoop env w cf rest
        { b with
          transaction := r.1
          transactionSignatures := b.transactionSignatures ++ r.2
          signed := true }

/-- Signature loop of `Sign` over the fund-added siafund inputs (lines
723-732). -/
def signSiafundInputsLoop (env : WEnv) (w : WalletState) (cf : CoveredFields) :
    List Nat → Builder → Except WErr Unit × Builder
  | [], b => (.ok (), b)
  | inputIndex :: rest, b =>
    match alookup w.keys
        (env.ucHash (b.transaction.siafundInputs.getD inputIndex default).unlockConditions) with
    | none => (.error .cannotSignInput, b)
    | some key =>
      let input := b.transaction.siafundInputs.getD inputIndex default
      let r := addSignatures env b.transaction cf input.unlockConditions input.parentID key
      signSiafundInputsLoop env w cf rest
        { b with
          transaction := r.1
          transactionSignatures := b.transactionSignatures ++ r.2
          signed := true }

/-- Embedding of `transactionBuilder.Sign` (lines 665-737). -/
def Sign (env : WEnv) (w : WalletState) (b : Builder) (wholeTransaction : Bool) :
    Except WErr (List Transaction) × Builder :=
  if b.signed then (.error .builderAlreadySigned, b)
  else
    let coveredFields := buildCoveredFields b.transaction wholeTransaction
    match signSiacoinInputsLoop env w coveredFields b.siacoinInputs b with
    | (.error e, b) => (.error e, b)
    | (.ok (), b) =>
      match signSiafundInputsLoop env w coveredFields b.siafundInputs b with
      | (.error e, b) => (.error e, b)
      | (.ok (), b) => (.ok (b.parents ++ [b.transaction]), b)

/-! Helper lemmas for the builder claims. -/

/-- Deleting a key removes it. -/
theorem alookup_adel_self {α : Type} (l : List (Nat × α)) (k : Nat) :
    alookup (adel l k) k = none := by
  induction l with
  | nil => rfl
  | cons p rest ih =>
    obtain ⟨pk, pv⟩ := p
    simp only [adel]
    by_cases hp : pk = k
    · rw [if_pos hp]; exact ih
    · rw [if_neg hp]
      simp only [alookup]
      rw [if_neg hp]
      exact ih

/-- Deleting another key preserves a lookup. -/
theorem alookup_adel_ne {α : Type} (l : List (Nat × α)) (k k' : Nat)
    (h : k' ≠ k) : alookup (adel l k') k = alookup l k := by
  induction l with
  | nil => rfl
  | cons p rest ih =>
    obtain ⟨pk, pv⟩ := p
    simp only [adel]
    by_cases hp : pk = k'
    · rw [if_pos hp]
      simp only [alookup]
      rw [if_neg (by rw [hp]; exact h)]
      exact ih
    · rw [if_neg hp]
      simp only [alookup]
      by_cases hk : pk = k
      · rw [if_pos hk, if_pos hk]
      · rw [if_neg hk, if_neg hk]
        exact ih

/-- Folding deletions over a list of keys removes exactly those keys. -/
theorem alookup_foldl_adel {α : Type} :
    ∀ (ids : List Nat) (m : List (Nat × α)) (k : Nat),
      alookup (ids.foldl (fun m id => adel m id) m) k =
        if k ∈ ids then none else alookup m k := by
  intro ids
  induction ids with
  | nil => intro m k; simp
  | cons id rest ih =>
    intro m k
    simp only [List.foldl_cons]
    rw [ih]
    by_cases hmem : k ∈ rest
    · simp [hmem]
    · rw [if_neg hmem]
      by_cases hk : k = id
      · subst hk
        simp [alookup_adel_self]
      · simp only [List.mem_cons]
        rw [if_neg (by simp [hk, hmem])]
        exact alookup_adel_ne m k id (fun hc => hk hc.symm)

/-- Folding upserts over keys at a height leaves other keys alone. -/
theorem alookup_foldl_aput_notmem {α : Type} (v : α) :
    ∀ (ids : List Nat) (m : List (Nat × α)) (k : Nat),
      k ∉ ids →
      alookup (ids.foldl (fun m id => aput m id v) m) k = alookup m k := by
  intro ids
  induction ids with
  | nil => intro m k _; rfl
  | cons id rest ih =>
    intro m k hk
    simp only [List.foldl_cons]
    rw [ih _ _ (fun hc => hk (List.mem_cons.mpr (Or.inr hc)))]
    exact alookup_aput_ne m k id v (fun hc => hk (hc ▸ List.mem_cons_self id rest))

/-- The output IDs whose reservations `Drop` deletes: the parent IDs of
the siacoin inputs across the builder's parents and transaction. -/
def dropIDs (b : Builder) : List Nat :=
  (b.parents ++ [b.transaction]).flatMap
    (fun txn => txn.siacoinInputs.map (fun sci => sci.parentID))

/-- The nested deletion loop of `Drop` is the fold of deletions over
`dropIDs`. -/
theorem drop_fold_eq (b : Builder) (m : List (Nat × Nat)) :
    (b.parents ++ [b.transaction]).foldl
        (fun m txn => txn.siacoinInputs.foldl (fun m sci => adel m sci.parentID) m) m
      = (dropIDs b).foldl (fun m id => adel m id) m := by
  unfold dropIDs
  generalize b.parents ++ [b.transaction] = txns
  induction txns generalizing m with
  | nil => rfl
  | cons t rest ih =>
    simp only [List.foldl_cons, List.flatMap_cons, List.foldl_append]
    rw [← ih]
    congr 1
    rw [← List.foldl_map (fun sci : SiacoinInput => sci.parentID) (fun m id => adel m id)]

/-- Pointwise description of the spent-output table after `Drop`. -/
theorem Drop_spentOutputs (w : WalletState) (b : Builder) (k : Nat) :
    alookup (Drop w b).1.spentOutputs k =
      if k ∈ dropIDs b then none else alookup w.spentOutputs k := by
  unfold Drop
  try dsimp only
  rw [drop_fold_eq]
  exact alookup_foldl_adel (dropIDs b) w.spentOutputs k

/-- The builder after `Drop` is the freshly-registered builder. -/
theorem Drop_builder (w : WalletState) (b : Builder) :
    (Drop w b).2 = ({} : Builder) := rfl

/-- The siacoin input the fund loops build for a selected output. -/
def mkScanInput (w : WalletState) (p : Nat × SiacoinOutput) : SiacoinInput :=
  { parentID := p.1, unlockConditions := (keysD w p.2.unlockHash).unlockConditions }

/-- The candidate outputs accepted by `checkOutput`, in list order. -/
def acceptedList (env : WEnv) (w : WalletState) (height : Nat) :
    List (Nat × SiacoinOutput) → List (Nat × SiacoinOutput)
  | [] => []
  | p :: rest =>
    if checkOutput env w height p.1 p.2 = .ok () then
      p :: acceptedList env w height rest
    else acceptedList env w height rest

/-- Total value of the accepted candidates. -/
def acceptedSum (env : WEnv) (w : WalletState) (height : Nat)
    (outs : List (Nat × SiacoinOutput)) : Nat :=
  ((acceptedList env w height outs).map (fun p => p.2.value)).sum

/-- Total value of the candidates skipped by the respend check (those are
the ones `checkOutput` rejects with the spend-height error, whatever their
timelock). -/
def respendSum (env : WEnv) (w : WalletState) (height : Nat) :
    List (Nat × SiacoinOutput) → Nat
  | [] => 0
  | p :: rest =>
    (if checkOutput env w height p.1 p.2 = .error .spendHeightTooHigh then p.2.value else 0)
      + respendSum env w height rest

/-- Characterization of the `FundSiacoinsForOutputs` selection loop: the
fund never exceeds the accepted total; either the loop stopped with the
amount covered, or it consumed every candidate, in which case the fund is
the accepted total, the potential fund additionally counts the
respend-skipped values, and the appended inputs and spent list are exactly
the accepted candidates; the loop never touches miner fees or outputs. -/
theorem fundOutputsScan_spec (env : WEnv) (w : WalletState) (h amount : Nat) :
    ∀ (outs : List (Nat × SiacoinOutput)) (b : Builder) (fund pot : Nat)
      (spent : List Nat) (rb : Builder) (rfund rpot : Nat) (rspent : List Nat),
      fundOutputsScan env w h amount outs b fund pot spent = (rb, rfund, rpot, rspent) →
      rfund ≤ fund + acceptedSum env w h outs ∧
      (amount ≤ rfund ∨
        (rfund = fund + acceptedSum env w h outs ∧
         rpot = pot + acceptedSum env w h outs + respendSum env w h outs ∧
         rb.transaction.siacoinInputs = b.transaction.siacoinInputs ++
           (acceptedList env w h outs).map (mkScanInput w) ∧
         rspent = spent ++ (acceptedList env w h outs).map Prod.fst)) ∧
      rb.transaction.minerFees = b.transaction.minerFees ∧
      rb.transaction.siacoinOutputs = b.transaction.siacoinOutputs := by
  intro outs
  induction outs with
  | nil =>
    intro b fund pot spent rb rfund rpot rspent hr
    simp only [fundOutputsScan, Prod.mk.injEq] at hr
    obtain ⟨rfl, rfl, rfl, rfl⟩ := hr
    refine ⟨by simp [acceptedSum, acceptedList], Or.inr ?_, rfl, rfl⟩
    simp [acceptedSum, acceptedList, respendSum]
  | cons p rest ih =>
    intro b fund pot spent rb rfund rpot rspent hr
    obtain ⟨id, sco⟩ := p
    simp only [fundOutputsScan] at hr
    cases hc : checkOutput env w h id sco with
    | error e =>
      rw [hc] at hr
      dsimp only at hr
      by_cases he : e = WErr.spendHeightTooHigh
      · subst he
        rw [if_pos rfl] at hr
        obtain ⟨c1, c2, c3, c4⟩ := ih b fund (pot + sco.value) spent rb rfund rpot rspent hr
        have hacc : acceptedList env w h ((id, sco) :: rest) = acceptedList env w h rest := by
          simp [acceptedList, hc]
        have haccs : acceptedSum env w h ((id, sco) :: rest) = acceptedSum env w h rest := by
          simp [acceptedSum, hacc]
        have hresp : respendSum env w h ((id, sco) :: rest) =
            sco.value + respendSum env w h rest := by
          simp [respendSum, hc]
        refine ⟨by omega, ?_, c3, c4⟩
        rcases c2 with hged | ⟨e1, e2, e3, e4⟩
        · exact Or.inl hged
        · exact Or.inr ⟨by omega, by omega, by rw [e3, hacc], by rw [e4, hacc]⟩
      · rw [if_neg he] at hr
        obtain ⟨c1, c2, c3, c4⟩ := ih b fund pot spent rb rfund rpot rspent hr
        have hacc : acceptedList env w h ((id, sco) :: rest) = acceptedList env w h rest := by
          simp [acceptedList, hc]
        have haccs : acceptedSum env w h ((id, sco) :: rest) = acceptedSum env w h rest := by
          simp [acceptedSum, hacc]
        have hresp : respendSum env w h ((id, sco) :: rest) = respendSum env w h rest := by
          simp [respendSum, hc, he]
        refine ⟨by omega, ?_, c3, c4⟩
        rcases c2 with hged | ⟨e1, e2, e3, e4⟩
        · exact Or.inl hged
        · exact Or.inr ⟨by omega, by omega, by rw [e3, hacc], by rw [e4, hacc]⟩
    | ok u =>
      cases u
      rw [hc] at hr
      dsimp only at hr
      have hacc : acceptedList env w h ((id, sco) :: rest) =
          (id, sco) :: acceptedList env w h rest := by
        simp [acceptedList, hc]
      have haccs : acceptedSum env w h ((id, sco) :: rest) =
          sco.value + acceptedSum env w h rest := by
        simp [acceptedSum, hacc]
      have hresp : respendSum env w h ((id, sco) :: rest) = respendSum env w h rest := by
        simp [respendSum, hc]
      by_cases hge : fund + sco.value ≥ amount
      · rw [if_pos hge] at hr
        simp only [Prod.mk.injEq] at hr
        obtain ⟨rfl, rfl, rfl, rfl⟩ := hr
        refine ⟨by omega, Or.inl hge, by simp, by simp⟩
      · rw [if_neg hge] at hr
        obtain ⟨c1, c2, c3, c4⟩ := ih _ (fund + sco.value) (pot + sco.value)
          (spent ++ [id]) rb rfund rpot rspent hr
        simp only at c3 c4
        refine ⟨by omega, ?_, by simpa using c3, by simpa using c4⟩
        rcases c2 with hged | ⟨e1, e2, e3, e4⟩
        · exact Or.inl hged
        · refine Or.inr ⟨by omega, by omega, ?_, ?_⟩
          · rw [hacc]
            simp only [List.map_cons]
            dsimp only at e3
            rw [e3]
            simp [mkScanInput, List.append_assoc]
          · rw [hacc]
            simp only [List.map_cons]
            rw [e4]
            simp [List.append_assoc]

/-- Every input the `FundSiacoinsForOutputs` loop appends comes from a
candidate output that passed `checkOutput`, and the spent list records
exactly those candidates' IDs. -/
theorem fundOutputsScan_sel (env : WEnv) (w : WalletState) (h amount : Nat) :
    ∀ (outs : List (Nat × SiacoinOutput)) (b : Builder) (fund pot : Nat)
      (spent : List Nat),
      ∃ sel : List (Nat × SiacoinOutput),
        (∀ p ∈ sel, checkOutput env w h p.1 p.2 = .ok ()) ∧
        (fundOutputsScan env w h amount outs b fund pot spent).1.transaction.siacoinInputs =
          b.transaction.siacoinInputs ++ sel.map (mkScanInput w) ∧
        (fundOutputsScan env w h amount outs b fund pot spent).2.2.2 =
          spent ++ sel.map Prod.fst := by
  intro outs
  induction outs with
  | nil =>
    intro b fund pot spent
    exact ⟨[], by simp, by simp [fundOutputsScan], by simp [fundOutputsScan]⟩
  | cons p rest ih =>
    intro b fund pot spent
    obtain ⟨id, sco⟩ := p
    simp only [fundOutputsScan]
    cases hc : checkOutput env w h id sco with
    | error e =>
      try dsimp only
      by_cases he : e = WErr.spendHeightTooHigh
      · subst he
        rw [if_pos rfl]
        exact ih b fund (pot + sco.value) spent
      · rw [if_neg he]
        exact ih b fund pot spent
    | ok u =>
      cases u
      try dsimp only
      by_cases hge : fund + sco.value ≥ amount
      · rw [if_pos hge]
        exact ⟨[(id, sco)], by simpa using hc, by simp [mkScanInput], by simp⟩
      · rw [if_neg hge]
        obtain ⟨sel, hsel, hin, hsp⟩ := ih _ (fund + sco.value) (pot + sco.value) (spent ++ [id])
        refine ⟨(id, sco) :: sel, ?_, ?_, ?_⟩
        · intro q hq
          rcases List.mem_cons.mp hq with rfl | hq2
          · simpa using hc
          · exact hsel q hq2
        · rw [hin]
          simp [mkScanInput, List.append_assoc]
        · rw [hsp]
          simp [List.append_assoc]

/-- Financial characterization of the `FundSiacoins` selection loop
(identical logic, appending to the parent transaction). -/
theorem fundSiacoinsScan_spec (env : WEnv) (w : WalletState) (h amount : Nat) :
    ∀ (outs : List (Nat × SiacoinOutput)) (t : Transaction) (fund pot : Nat)
      (spent : List Nat) (rt : Transaction) (rfund rpot : Nat) (rspent : List Nat),
      fundSiacoinsScan env w h amount outs t fund pot spent = (rt, rfund, rpot, rspent) →
      rfund ≤ fund + acceptedSum env w h outs ∧
      (amount ≤ rfund ∨
        (rfund = fund + acceptedSum env w h outs ∧
         rpot = pot + acceptedSum env w h outs + respendSum env w h outs)) := by
  intro outs
  induction outs with
  | nil =>
    intro t fund pot spent rt rfund rpot rspent hr
    simp only [fundSiacoinsScan, Prod.mk.injEq] at hr
    obtain ⟨rfl, rfl, rfl, rfl⟩ := hr
    exact ⟨by simp [acceptedSum, acceptedList], Or.inr ⟨by simp [acceptedSum, acceptedList],
      by simp [acceptedSum, acceptedList, respendSum]⟩⟩
  | cons p rest ih =>
    intro t fund pot spent rt rfund rpot rspent hr
    obtain ⟨id, sco⟩ := p
    simp only [fundSiacoinsScan] at hr
    cases hc : checkOutput env w h id sco with
    | error e =>
      rw [hc] at hr
      dsimp only at hr
      have hacc : acceptedList env w h ((id, sco) :: rest) = acceptedList env w h rest := by
        simp [acceptedList, hc]
      have haccs : acceptedSum env w h ((id, sco) :: rest) = acceptedSum env w h rest := by
        simp [acceptedSum, hacc]
      by_cases he : e = WErr.spendHeightTooHigh
      · subst he
        rw [if_pos rfl] at hr
        obtain ⟨c1, c2⟩ := ih t fund (pot + sco.value) spent rt rfund rpot rspent hr
        have hresp : respendSum env w h ((id, sco) :: rest) =
            sco.value + respendSum env w h rest := by
          simp [respendSum, hc]
        refine ⟨by omega, ?_⟩
        rcases c2 with hged | ⟨e1, e2⟩
        · exact Or.inl hged
        · exact Or.inr ⟨by omega, by omega⟩
      · rw [if_neg he] at hr
        obtain ⟨c1, c2⟩ := ih t fund pot spent rt rfund rpot rspent hr
        have hresp : respendSum env w h ((id, sco) :: rest) = respendSum env w h rest := by
          simp [respendSum, hc, he]
        refine ⟨by omega, ?_⟩
        rcases c2 with hged | ⟨e1, e2⟩
        · exact Or.inl hged
        · exact Or.inr ⟨by omega, by omega⟩
    | ok u =>
      cases u
      rw [hc] at hr
      dsimp only at hr
      have hacc : acceptedList env w h ((id, sco) :: rest) =
          (id, sco) :: acceptedList env w h rest := by
        simp [acceptedList, hc]
      have haccs : acceptedSum env w h ((id, sco) :: rest) =
          sco.value + acceptedSum env w h rest := by
        simp [acceptedSum, hacc]
      have hresp : respendSum env w h ((id, sco) :: rest) = respendSum env w h rest := by
        simp [respendSum, hc]
      by_cases hge : fund + sco.value ≥ amount
      · rw [if_pos hge] at hr
        simp only [Prod.mk.injEq] at hr
        obtain ⟨rfl, rfl, rfl, rfl⟩ := hr
        exact ⟨by omega, Or.inl hge⟩
      · rw [if_neg hge] at hr
        obtain ⟨c1, c2⟩ := ih _ (fund + sco.value) (pot + sco.value) (spent ++ [id])
          rt rfund rpot rspent hr
        refine ⟨by omega, ?_⟩
        rcases c2 with hged | ⟨e1, e2⟩
        · exact Or.inl hged
        · exact Or.inr ⟨by omega, by omega⟩

/-- Every input the `FundSiacoins` loop appends to the parent transaction
comes from a candidate that passed `checkOutput`, and the spent list
records exactly those candidates' IDs. -/
theorem fundSiacoinsScan_sel (env : WEnv) (w : WalletState) (h amount : Nat) :
    ∀ (outs : List (Nat × SiacoinOutput)) (t : Transaction) (fund pot : Nat)
      (spent : List Nat),
      ∃ sel : List (Nat × SiacoinOutput),
        (∀ p ∈ sel, checkOutput env w h p.1 p.2 = .ok ()) ∧
        (fundSiacoinsScan env w h amount outs t fund pot spent).1.siacoinInputs =
          t.siacoinInputs ++ sel.map (mkScanInput w) ∧
        (fundSiacoinsScan env w h amount outs t fund pot spent).2.2.2 =
          spent ++ sel.map Prod.fst := by
  intro outs
  induction outs with
  | nil =>
    intro t fund pot spent
    exact ⟨[], by simp, by simp [fundSiacoinsScan], by simp [fundSiacoinsScan]⟩
  | cons p rest ih =>
    intro t fund pot spent
    obtain ⟨id, sco⟩ := p
    simp only [fundSiacoinsScan]
    cases hc : checkOutput env w h id sco with
    | error e =>
      try dsimp only
      by_cases he : e = WErr.spendHeightTooHigh
      · subst he
        rw [if_pos rfl]
        exact ih t fund (pot + sco.value) spent
      · rw [if_neg he]
        exact ih t fund pot spent
    | ok u =>
      cases u
      try dsimp only
      by_cases hge : fund + sco.value ≥ amount
      · rw [if_pos hge]
        exact ⟨[(id, sco)], by simpa using hc, by simp [mkScanInput], by simp⟩
      · rw [if_neg hge]
        obtain ⟨sel, hsel, hin, hsp⟩ := ih _ (fund + sco.value) (pot + sco.value) (spent ++ [id])
        refine ⟨(id, sco) :: sel, ?_, ?_, ?_⟩
        · intro q hq
          rcases List.mem_cons.mp hq with rfl | hq2
          · simpa using hc
          · exact hsel q hq2
        · rw [hin]
          simp [mkScanInput, List.append_assoc]
        · rw [hsp]
          simp [List.append_assoc]

/-- The allowed spend height of the `FundSiafunds` respend check:
`consensusHeight - RespendTimeout`, clamped at zero. -/
def sfAllowedHeight (env : WEnv) (height : Nat) : Nat :=
  if height < env.respendTimeout then 0 else height - env.respendTimeout

/-- The siafund outputs `FundSiafunds` accepts, in bucket order: not
recently spent (recorded spend height at most the allowed height, with a
missing entry read as height 0) and timelock not in the future. There is
no dust check. -/
def sfAcceptedList (env : WEnv) (w : WalletState) (height : Nat) :
    List (Nat × SiafundOutput) → List (Nat × SiafundOutput)
  | [] => []
  | p :: rest =>
    if (alookup w.spentOutputs p.1).getD 0 > sfAllowedHeight env height then
      sfAcceptedList env w height rest
    else if height < (keysD w p.2.unlockHash).unlockConditions.timelock then
      sfAcceptedList env w height rest
    else p :: sfAcceptedList env w height rest

/-- Total value of the accepted siafund candidates. -/
def sfAcceptedSum (env : WEnv) (w : WalletState) (height : Nat)
    (outs : List (Nat × SiafundOutput)) : Nat :=
  ((sfAcceptedList env w height outs).map (fun p => p.2.value)).sum

/-- Total value of the siafund candidates skipped by the respend check. -/
def sfRespendSum (env : WEnv) (w : WalletState) (height : Nat) :
    List (Nat × SiafundOutput) → Nat
  | [] => 0
  | p :: rest =>
    (if (alookup w.spentOutputs p.1).getD 0 > sfAllowedHeight env height then p.2.value else 0)
      + sfRespendSum env w height rest

/-- Financial characterization of the `FundSiafunds` selection loop. -/
theorem fundSiafundsScan_spec (env : WEnv) (w : WalletState) (h amount : Nat) :
    ∀ (outs : List (Nat × SiafundOutput)) (seedIndex : Nat) (t : Transaction)
      (fund pot : Nat) (spent : List Nat) (rseed : Nat) (rt : Transaction)
      (rfund rpot : Nat) (rspent : List Nat),
      fundSiafundsScan env w h amount outs seedIndex t fund pot spent =
        (rseed, rt, rfund, rpot, rspent) →
      rfund ≤ fund + sfAcceptedSum env w h outs ∧
      (amount ≤ rfund ∨
        (rfund = fund + sfAcceptedSum env w h outs ∧
         rpot = pot + sfAcceptedSum env w h outs + sfRespendSum env w h outs)) := by
  intro outs
  induction outs with
  | nil =>
    intro seedIndex t fund pot spent rseed rt rfund rpot rspent hr
    simp only [fundSiafundsScan, Prod.mk.injEq] at hr
    obtain ⟨rfl, rfl, rfl, rfl, rfl⟩ := hr
    exact ⟨by simp [sfAcceptedSum, sfAcceptedList],
      Or.inr ⟨by simp [sfAcceptedSum, sfAcceptedList],
        by simp [sfAcceptedSum, sfAcceptedList, sfRespendSum]⟩⟩
  | cons p rest ih =>
    intro seedIndex t fund pot spent rseed rt rfund rpot rspent hr
    obtain ⟨id, sfo⟩ := p
    simp only [fundSiafundsScan] at hr
    by_cases h1 : (alookup w.spentOutputs id).getD 0 >
        (if h < env.respendTimeout then 0 else h - env.respendTimeout)
    · rw [if_pos h1] at hr
      obtain ⟨c1, c2⟩ := ih seedIndex t fund (pot + sfo.value) spent rseed rt rfund rpot rspent hr
      have hacc : sfAcceptedList env w h ((id, sfo) :: rest) = sfAcceptedList env w h rest := by
        simp only [sfAcceptedList, sfAllowedHeight]
        rw [if_pos h1]
      have haccs : sfAcceptedSum env w h ((id, sfo) :: rest) = sfAcceptedSum env w h rest := by
        simp [sfAcceptedSum, hacc]
      have hresp : sfRespendSum env w h ((id, sfo) :: rest) =
          sfo.value + sfRespendSum env w h rest := by
        simp only [sfRespendSum, sfAllowedHeight]
        rw [if_pos h1]
      refine ⟨by omega, ?_⟩
      rcases c2 with hged | ⟨e1, e2⟩
      · exact Or.inl hged
      · exact Or.inr ⟨by omega, by omega⟩
    · rw [if_neg h1] at hr
      have hresp : sfRespendSum env w h ((id, sfo) :: rest) = sfRespendSum env w h rest := by
        simp only [sfRespendSum, sfAllowedHeight]
        rw [if_neg h1]
        simp
      by_cases h2 : h < (keysD w sfo.unlockHash).unlockConditions.timelock
      · rw [if_pos h2] at hr
        obtain ⟨c1, c2⟩ := ih seedIndex t fund pot spent rseed rt rfund rpot rspent hr
        have hacc : sfAcceptedList env w h ((id, sfo) :: rest) =
            sfAcceptedList env w h rest := by
          simp only [sfAcceptedList, sfAllowedHeight]
          rw [if_neg h1, if_pos h2]
        have haccs : sfAcceptedSum env w h ((id, sfo) :: rest) =
            sfAcceptedSum env w h rest := by
          simp [sfAcceptedSum, hacc]
        refine ⟨by omega, ?_⟩
        rcases c2 with hged | ⟨e1, e2⟩
        · exact Or.inl hged
        · exact Or.inr ⟨by omega, by omega⟩
      · rw [if_neg h2] at hr
        have hacc : sfAcceptedList env w h ((id, sfo) :: rest) =
            (id, sfo) :: sfAcceptedList env w h rest := by
          simp only [sfAcceptedList, sfAllowedHeight]
          rw [if_neg h1, if_neg h2]
        have haccs : sfAcceptedSum env w h ((id, sfo) :: rest) =
            sfo.value + sfAcceptedSum env w h rest := by
          simp [sfAcceptedSum, hacc]
        by_cases hge : fund + sfo.value ≥ amount
        · rw [if_pos hge] at hr
          simp only [Prod.mk.injEq] at hr
          obtain ⟨rfl, rfl, rfl, rfl, rfl⟩ := hr
          exact ⟨by omega, Or.inl hge⟩
        · rw [if_neg hge] at hr
          obtain ⟨c1, c2⟩ := ih (seedIndex + 1) _ (fund + sfo.value) (pot + sfo.value)
            (spent ++ [id]) rseed rt rfund rpot rspent hr
          refine ⟨by omega, ?_⟩
          rcases c2 with hged | ⟨e1, e2⟩
          · exact Or.inl hged
          · exact Or.inr ⟨by omega, by omega⟩

/-- Complete result classification of `FundSiacoinsForOutputs`: it fails
with `IncompleteTransactions` exactly when the accepted outputs fall short
of the amount but the respend-skipped outputs would cover the shortfall,
with `LowBalance` exactly when even those do not cover it, and succeeds
otherwise. -/
theorem FundSiacoinsForOutputs_result (env : WEnv) (w : WalletState) (b : Builder)
    (outputs : List SiacoinOutput) (fee : Nat) :
    (FundSiacoinsForOutputs env w b outputs fee).1 =
      (if acceptedSum env w w.consensusHeight w.sortedOutputs <
            calculateAmountFromOutputs outputs fee ∧
          calculateAmountFromOutputs outputs fee ≤
            acceptedSum env w w.consensusHeight w.sortedOutputs +
              respendSum env w w.consensusHeight w.sortedOutputs
       then .error .incompleteTransactions
       else if acceptedSum env w w.consensusHeight w.sortedOutputs +
            respendSum env w w.consensusHeight w.sortedOutputs <
            calculateAmountFromOutputs outputs fee
       then .error .lowBalance
       else .ok ()) := by
  cases hscan : fundOutputsScan env w w.consensusHeight
      (calculateAmountFromOutputs outputs fee) w.sortedOutputs
      (if 0 < fee then
        { b with transaction :=
          { b.transaction with minerFees := b.transaction.minerFees ++ [fee] } }
       else b) 0 0 [] with
  | mk rb rrest =>
    obtain ⟨rfund, rpot, rspent⟩ := rrest
    obtain ⟨c1, c2⟩ := (fundOutputsScan_spec env w w.consensusHeight
      (calculateAmountFromOutputs outputs fee) w.sortedOutputs _ 0 0 [] rb rfund rpot rspent
      hscan)
    simp only [FundSiacoinsForOutputs]
    rw [hscan]
    try dsimp only
    rcases c2.1 with hged | ⟨e1, e2, e3, e4⟩
    · rw [if_neg (show ¬(rpot ≥ calculateAmountFromOutputs outputs fee ∧
          rfund < calculateAmountFromOutputs outputs fee) from by omega),
        if_neg (show ¬(rfund < calculateAmountFromOutputs outputs fee) from by omega)]
      try dsimp only
      split
      · exfalso; omega
      · split
        · exfalso; omega
        · rfl
    · by_cases hL1 : rpot ≥ calculateAmountFromOutputs outputs fee ∧
          rfund < calculateAmountFromOutputs outputs fee
      · rw [if_pos hL1]
        try dsimp only
        split
        · rfl
        · split
          · exfalso; omega
          · exfalso; omega
      · rw [if_neg hL1]
        try dsimp only
        by_cases hL2 : rfund < calculateAmountFromOutputs outputs fee
        · rw [if_pos hL2]
          try dsimp only
          split
          · exfalso; omega
          · split
            · rfl
            · exfalso; omega
        · rw [if_neg hL2]
          try dsimp only
          split
          · exfalso; omega
          · split
            · exfalso; omega
            · rfl

/-- Complete result classification of `FundSiacoins` (same selection
logic as `FundSiacoinsForOutputs`). -/
theorem FundSiacoins_result (env : WEnv) (w : WalletState) (b : Builder) (amount : Nat) :
    (FundSiacoins env w b amount).1 =
      (if acceptedSum env w w.consensusHeight w.sortedOutputs < amount ∧
          amount ≤ acceptedSum env w w.consensusHeight w.sortedOutputs +
            respendSum env w w.consensusHeight w.sortedOutputs
       then .error .incompleteTransactions
       else if acceptedSum env w w.consensusHeight w.sortedOutputs +
            respendSum env w w.consensusHeight w.sortedOutputs < amount
       then .error .lowBalance
       else .ok ()) := by
  cases hscan : fundSiacoinsScan env w w.consensusHeight amount w.sortedOutputs {} 0 0 [] with
  | mk rt rrest =>
    obtain ⟨rfund, rpot, rspent⟩ := rrest
    obtain ⟨c1, c2⟩ := fundSiacoinsScan_spec env w w.consensusHeight amount
      w.sortedOutputs {} 0 0 [] rt rfund rpot rspent hscan
    simp only [FundSiacoins]
    rw [hscan]
    try dsimp only
    rcases c2 with hged | ⟨e1, e2⟩
    · rw [if_neg (show ¬(rpot ≥ amount ∧ rfund < amount) from by omega),
        if_neg (show ¬(rfund < amount) from by omega)]
      try dsimp only
      split
      · exfalso; omega
      · split
        · exfalso; omega
        · rfl
    · by_cases hL1 : rpot ≥ amount ∧ rfund < amount
      · rw [if_pos hL1]
        try dsimp only
        split
        · rfl
        · split
          · exfalso; omega
          · exfalso; omega
      · rw [if_neg hL1]
        try dsimp only
        by_cases hL2 : rfund < amount
        · rw [if_pos hL2]
          try dsimp only
          split
          · exfalso; omega
          · split
            · rfl
            · exfalso; omega
        · rw [if_neg hL2]
          try dsimp only
          split
          · exfalso; omega
          · split
            · exfalso; omega
            · rfl

/-- Complete result classification of `FundSiafunds` (its own respend
check, no dust check). -/
theorem FundSiafunds_result (env : WEnv) (w : WalletState) (b : Builder) (amount : Nat) :
    (FundSiafunds env w b amount).1 =
      (if sfAcceptedSum env w w.consensusHeight w.siafundOutputs < amount ∧
          amount ≤ sfAcceptedSum env w w.consensusHeight w.siafundOutputs +
            sfRespendSum env w w.consensusHeight w.siafundOutputs
       then .error .incompleteTransactions
       else if sfAcceptedSum env w w.consensusHeight w.siafundOutputs +
            sfRespendSum env w w.consensusHeight w.siafundOutputs < amount
       then .error .lowBalance
       else .ok ()) := by
  cases hscan : fundSiafundsScan env w w.consensusHeight amount w.siafundOutputs
      w.seedIndex {} 0 0 [] with
  | mk rseed rrest =>
    obtain ⟨rt, rfund, rpot, rspent⟩ := rrest
    obtain ⟨c1, c2⟩ := fundSiafundsScan_spec env w w.consensusHeight amount
      w.siafundOutputs w.seedIndex {} 0 0 [] rseed rt rfund rpot rspent hscan
    simp only [FundSiafunds]
    rw [hscan]
    try dsimp only
    rcases c2 with hged | ⟨e1, e2⟩
    · rw [if_neg (show ¬(rpot ≥ amount ∧ rfund < amount) from by omega),
        if_neg (show ¬(rfund < amount) from by omega)]
      try dsimp only
      split
      · exfalso; omega
      · split
        · exfalso; omega
        · rfl
    · by_cases hL1 : rpot ≥ amount ∧ rfund < amount
      · rw [if_pos hL1]
        try dsimp only
        split
        · rfl
        · split
          · exfalso; omega
          · exfalso; omega
      · rw [if_neg hL1]
        try dsimp only
        by_cases hL2 : rfund < amount
        · rw [if_pos hL2]
          try dsimp only
          split
          · exfalso; omega
          · split
            · rfl
            · exfalso; omega
        · rw [if_neg hL2]
          try dsimp only
          split
          · exfalso; omega
          · split
            · exfalso; omega
            · rfl

/-- Every siacoin input `FundSiacoinsForOutputs` appends to the builder's
transaction comes from a candidate output that passed `checkOutput` (dust,
respend and timelock checks). -/
theorem FundSiacoinsForOutputs_inputs_accepted (env : WEnv) (w : WalletState)
    (b : Builder) (outputs : List SiacoinOutput) (fee : Nat) :
    ∃ sel : List (Nat × SiacoinOutput),
      (∀ p ∈ sel, checkOutput env w w.consensusHeight p.1 p.2 = .ok ()) ∧
      (FundSiacoinsForOutputs env w b outputs fee).2.1.transaction.siacoinInputs =
        b.transaction.siacoinInputs ++ sel.map (mkScanInput w) := by
  cases hscan : fundOutputsScan env w w.consensusHeight
      (calculateAmountFromOutputs outputs fee) w.sortedOutputs
      (if 0 < fee then
        { b with transaction :=
          { b.transaction with minerFees := b.transaction.minerFees ++ [fee] } }
       else b) 0 0 [] with
  | mk rb rrest =>
    obtain ⟨rfund, rpot, rspent⟩ := rrest
    obtain ⟨sel, hsel, hin, hsp⟩ := fundOutputsScan_sel env w w.consensusHeight
      (calculateAmountFromOutputs outputs fee) w.sortedOutputs
      (if 0 < fee then
        { b with transaction :=
          { b.transaction with minerFees := b.transaction.minerFees ++ [fee] } }
       else b) 0 0 []
    rw [hscan] at hin
    have hbfee : (if 0 < fee then
        { b with transaction :=
          { b.transaction with minerFees := b.transaction.minerFees ++ [fee] } }
       else b).transaction.siacoinInputs = b.transaction.siacoinInputs := by
      by_cases hf : 0 < fee <;> simp [hf]
    rw [hbfee] at hin
    refine ⟨sel, hsel, ?_⟩
    simp only [FundSiacoinsForOutputs]
    rw [hscan]
    try dsimp only
    split
    · exact hin
    · split
      · exact hin
      · split
        · try dsimp only
          exact hin
        · try dsimp only
          exact hin

/-- C6 (amended): for each of the three fund calls, the call fails with
`IncompleteTransactions` exactly when the usable outputs fall short of the
requested amount but adding the respend-skipped outputs would cover it,
and fails with `LowBalance` exactly when even those do not cover it; the
respend-skipped outputs are those rejected by the respend check whatever
their timelock. For the siacoin calls usable means passing `checkOutput`
(dust, respend, timelock, in that order); for `FundSiafunds` there is no
dust check, a missing spent entry reads as height 0 and the respend bound
is `max(consensusHeight - RespendTimeout, 0)`. Inputs are only ever added
for outputs that passed the checks. -/
theorem C6_fund_error_classification :
    (∀ (env : WEnv) (w : WalletState) (b : Builder) (outputs : List SiacoinOutput)
      (fee : Nat),
      (FundSiacoinsForOutputs env w b outputs fee).1 =
        (if acceptedSum env w w.consensusHeight w.sortedOutputs <
              calculateAmountFromOutputs outputs fee ∧
            calculateAmountFromOutputs outputs fee ≤
              acceptedSum env w w.consensusHeight w.sortedOutputs +
                respendSum env w w.consensusHeight w.sortedOutputs
         then .error .incompleteTransactions
         else if acceptedSum env w w.consensusHeight w.sortedOutputs +
              respendSum env w w.consensusHeight w.sortedOutputs <
              calculateAmountFromOutputs outputs fee
         then .error .lowBalance
         else .ok ())) ∧
    (∀ (env : WEnv) (w : WalletState) (b : Builder) (amount : Nat),
      (FundSiacoins env w b amount).1 =
        (if acceptedSum env w w.consensusHeight w.sortedOutputs < amount ∧
            amount ≤ acceptedSum env w w.consensusHeight w.sortedOutputs +
              respendSum env w w.consensusHeight w.sortedOutputs
         then .error .incompleteTransactions
         else if acceptedSum env w w.consensusHeight w.sortedOutputs +
              respendSum env w w.consensusHeight w.sortedOutputs < amount
         then .error .lowBalance
         else .ok ())) ∧
    (∀ (env : WEnv) (w : WalletState) (b : Builder) (amount : Nat),
      (FundSiafunds env w b amount).1 =
        (if sfAcceptedSum env w w.consensusHeight w.siafundOutputs < amount ∧
            amount ≤ sfAcceptedSum env w w.consensusHeight w.siafundOutputs +
              sfRespendSum env w w.consensusHeight w.siafundOutputs
         then .error .incompleteTransactions
         else if sfAcceptedSum env w w.consensusHeight w.siafundOutputs +
              sfRespendSum env w w.consensusHeight w.siafundOutputs < amount
         then .error .lowBalance
         else .ok ())) ∧
    (∀ (env : WEnv) (w : WalletState) (b : Builder) (outputs : List SiacoinOutput)
      (fee : Nat),
      ∃ sel : List (Nat × SiacoinOutput),
        (∀ p ∈ sel, checkOutput env w w.consensusHeight p.1 p.2 = .ok ()) ∧
        (FundSiacoinsForOutputs env w b outputs fee).2.1.transaction.siacoinInputs =
          b.transaction.siacoinInputs ++ sel.map (mkScanInput w)) :=
  ⟨FundSiacoinsForOutputs_result, FundSiacoins_result, FundSiafunds_result,
   FundSiacoinsForOutputs_inputs_accepted⟩

/-- Concrete builder environment for the wallet witnesses (any computable
instantiation of the external primitives is admissible). -/
def exEnvW : WEnv :=
  { ucHash := fun uc => uc.timelock
    pubOf := fun sk => sk
    sigHash := fun _ _ => 0
    signHash := fun _ _ => 0
    scoID := fun _ i => 1000 + i
    sfoID := fun _ i => 2000 + i
    respendTimeout := 40
    addrGen := fun i => { timelock := 100 + i, publicKeys := [], signaturesRequired := 0 } }

/-- Wallet whose single candidate output was tentatively spent at height 5
and is also still timelocked (timelock 100, current height 10): it fails
both the respend and the timelock checks, the respend check first. -/
def exWalletTL : WalletState :=
  { spentOutputs := [(1, 5)]
    keys := [(100, { unlockConditions :=
      { timelock := 100, publicKeys := [], signaturesRequired := 0 }, secretKeys := [] })]
    seedIndex := 0
    siafundOutputs := []
    consensusHeight := 10
    dustThreshold := 0
    sortedOutputs := [(1, { value := 100, unlockHash := 100 })] }

/-- C6 counterexample: the only candidate output is skipped by the respend
check but its timelock is also unmet, so it is not skipped *only* because
it was tentatively spent; the claim then demands `LowBalance`, yet the
code counts it into the potential fund and returns
`IncompleteTransactions`. -/
theorem C6_counterexample_timelocked_respend_output :
    checkOutput exEnvW exWalletTL 10 1 { value := 100, unlockHash := 100 } =
      .error .spendHeightTooHigh ∧
    ((10 : Nat) < (keysD exWalletTL 100).unlockConditions.timelock) ∧
    (FundSiacoinsForOutputs exEnvW exWalletTL {}
      [{ value := 50, unlockHash := 77 }] 0).1 = .error .incompleteTransactions := by
  refine ⟨by decide, by decide, by decide⟩

/-- C10: `FundSiacoinsForOutputs` is not atomic on failure. With a
positive fee, whenever the call returns `IncompleteTransactions` or
`LowBalance` the returned builder still carries the appended miner fee and
every input appended during the scan (here: one input per accepted
candidate, since a failing scan consumes the whole candidate list); no
rollback of the transaction is performed, though the wallet state is
untouched on these paths. -/
theorem C10_fsfo_no_rollback (env : WEnv) (w : WalletState) (b : Builder)
    (outputs : List SiacoinOutput) (fee : Nat) (hfee : 0 < fee)
    (herr : (FundSiacoinsForOutputs env w b outputs fee).1 =
        .error .incompleteTransactions ∨
      (FundSiacoinsForOutputs env w b outputs fee).1 = .error .lowBalance) :
    (FundSiacoinsForOutputs env w b outputs fee).2.1.transaction.minerFees =
      b.transaction.minerFees ++ [fee] ∧
    (FundSiacoinsForOutputs env w b outputs fee).2.1.transaction.siacoinInputs =
      b.transaction.siacoinInputs ++
        (acceptedList env w w.consensusHeight w.sortedOutputs).map (mkScanInput w) ∧
    (FundSiacoinsForOutputs env w b outputs fee).2.2 = w := by
  cases hscan : fundOutputsScan env w w.consensusHeight
      (calculateAmountFromOutputs outputs fee) w.sortedOutputs
      (if 0 < fee then
        { b with transaction :=
          { b.transaction with minerFees := b.transaction.minerFees ++ [fee] } }
       else b) 0 0 [] with
  | mk rb rrest =>
    obtain ⟨rfund, rpot, rspent⟩ := rrest
    obtain ⟨c1, c2, c3, c4⟩ := fundOutputsScan_spec env w w.consensusHeight
      (calculateAmountFromOutputs outputs fee) w.sortedOutputs _ 0 0 [] rb rfund rpot rspent
      hscan
    rw [if_pos hfee] at c3
    try dsimp only at c3
    simp only [FundSiacoinsForOutputs] at herr ⊢
    rw [hscan] at herr ⊢
    try dsimp only at herr ⊢
    by_cases hL1 : rpot ≥ calculateAmountFromOutputs outputs fee ∧
        rfund < calculateAmountFromOutputs outputs fee
    · rw [if_pos hL1] at herr ⊢
      rcases c2 with hged | ⟨e1, e2, e3, e4⟩
      · exact absurd hL1.2 (by omega)
      · rw [if_pos hfee] at e3
        try dsimp only at e3
        exact ⟨c3, e3, rfl⟩
    · rw [if_neg hL1] at herr ⊢
      by_cases hL2 : rfund < calculateAmountFromOutputs outputs fee
      · rw [if_pos hL2] at herr ⊢
        rcases c2 with hged | ⟨e1, e2, e3, e4⟩
        · exact absurd hL2 (by omega)
        · rw [if_pos hfee] at e3
          try dsimp only at e3
          exact ⟨c3, e3, rfl⟩
      · rw [if_neg hL2] at herr
        try dsimp only at herr
        rcases herr with h | h <;> exact absurd h (by simp)

/-- Wallet with a single usable 60-coin output, too small for the
requested transfer. -/
def exWalletLow : WalletState :=
  { spentOutputs := []
    keys := [(3, { unlockConditions :=
      { timelock := 3, publicKeys := [], signaturesRequired := 0 }, secretKeys := [] })]
    seedIndex := 0
    siafundOutputs := []
    consensusHeight := 100
    dustThreshold := 0
    sortedOutputs := [(1, { value := 60, unlockHash := 3 })] }

theorem C10_fsfo_no_rollback_witness :
    (FundSiacoinsForOutputs exEnvW exWalletLow {}
        [{ value := 100, unlockHash := 77 }] 7).2.1.transaction.minerFees =
      ({} : Builder).transaction.minerFees ++ [7] ∧
    (FundSiacoinsForOutputs exEnvW exWalletLow {}
        [{ value := 100, unlockHash := 77 }] 7).2.1.transaction.siacoinInputs =
      ({} : Builder).transaction.siacoinInputs ++
        (acceptedList exEnvW exWalletLow exWalletLow.consensusHeight
          exWalletLow.sortedOutputs).map (mkScanInput exWalletLow) ∧
    (FundSiacoinsForOutputs exEnvW exWalletLow {}
        [{ value := 100, unlockHash := 77 }] 7).2.2 = exWalletLow :=
  C10_fsfo_no_rollback exEnvW exWalletLow {} [{ value := 100, unlockHash := 77 }] 7
    (by decide) (Or.inr (by decide))

/-- The signature loop only appends transaction signatures; the siacoin
inputs are untouched. -/
theorem addSignaturesLoop_siacoinInputs (env : WEnv) (cf : CoveredFields)
    (parentID : Nat) (spendKey : SpendableKey) (req : Nat) :
    ∀ (l : List (Nat × SiaPublicKey)) (t : Transaction) (idxs : List Nat) (total : Nat),
      ((addSignaturesLoop env cf parentID spendKey req l t idxs total).1).siacoinInputs =
        t.siacoinInputs := by
  intro l
  induction l with
  | nil => intro t idxs total; rfl
  | cons p rest ih =>
    intro t idxs total
    obtain ⟨i, pk⟩ := p
    simp only [addSignaturesLoop]
    cases hf : spendKey.secretKeys.find? (fun sk => env.pubOf sk == pk.key) with
    | none =>
      try dsimp only
      by_cases ht : total = req
      · rw [if_pos ht]
      · rw [if_neg ht]
        exact ih t idxs total
    | some sk =>
      try dsimp only
      by_cases ht : total + 1 = req
      · rw [if_pos ht]
      · rw [if_neg ht]
        rw [ih]

/-- `addSignatures` leaves the siacoin inputs untouched. -/
theorem addSignatures_siacoinInputs (env : WEnv) (t : Transaction) (cf : CoveredFields)
    (uc : UnlockConditions) (parentID : Nat) (key : SpendableKey) :
    ((addSignatures env t cf uc parentID key).1).siacoinInputs = t.siacoinInputs :=
  addSignaturesLoop_siacoinInputs env cf parentID key uc.signaturesRequired
    uc.publicKeys.enum t [] 0

/-- The parent-signing loop of `FundSiacoins` leaves the siacoin inputs
untouched. -/
theorem signParentInputsLoop_siacoinInputs (env : WEnv) (w : WalletState) :
    ∀ (l : List SiacoinInput) (t : Transaction),
      (signParentInputsLoop env w l t).siacoinInputs = t.siacoinInputs := by
  intro l
  induction l with
  | nil => intro t; rfl
  | cons sci rest ih =>
    intro t
    simp only [signParentInputsLoop]
    rw [ih, addSignatures_siacoinInputs]

/-- A key whose spent-output entry changed across `putSpentOutputs` is one
of the written keys. -/
theorem putSpentOutputs_changed (w : WalletState) (ids : List Nat) (h k : Nat)
    (hch : alookup (putSpentOutputs w ids h).spentOutputs k ≠ alookup w.spentOutputs k) :
    k ∈ ids := by
  by_contra hk
  exact hch (alookup_foldl_aput_notmem h ids w.spentOutputs k hk)

/-- Every spent-output entry `FundSiacoinsForOutputs` writes is the parent
ID of a siacoin input of the resulting builder's transaction, so a
subsequent `Drop` deletes it. -/
theorem FundSiacoinsForOutputs_changed_in_dropIDs (env : WEnv) (w : WalletState)
    (b : Builder) (outputs : List SiacoinOutput) (fee : Nat) (k : Nat)
    (hch : alookup (FundSiacoinsForOutputs env w b outputs fee).2.2.spentOutputs k ≠
      alookup w.spentOutputs k) :
    k ∈ dropIDs (FundSiacoinsForOutputs env w b outputs fee).2.1 := by
  cases hscan : fundOutputsScan env w w.consensusHeight
      (calculateAmountFromOutputs outputs fee) w.sortedOutputs
      (if 0 < fee then
        { b with transaction :=
          { b.transaction with minerFees := b.transaction.minerFees ++ [fee] } }
       else b) 0 0 [] with
  | mk rb rrest =>
    obtain ⟨rfund, rpot, rspent⟩ := rrest
    obtain ⟨sel, hsel, hin, hsp⟩ := fundOutputsScan_sel env w w.consensusHeight
      (calculateAmountFromOutputs outputs fee) w.sortedOutputs
      (if 0 < fee then
        { b with transaction :=
          { b.transaction with minerFees := b.transaction.minerFees ++ [fee] } }
       else b) 0 0 []
    rw [hscan] at hin hsp
    try dsimp only at hin hsp
    simp only [FundSiacoinsForOutputs] at hch ⊢
    rw [hscan] at hch ⊢
    try dsimp only at hch ⊢
    by_cases hL1 : rpot ≥ calculateAmountFromOutputs outputs fee ∧
        rfund < calculateAmountFromOutputs outputs fee
    · rw [if_pos hL1] at hch ⊢
      exact absurd rfl hch
    · rw [if_neg hL1] at hch ⊢
      by_cases hL2 : rfund < calculateAmountFromOutputs outputs fee
      · rw [if_pos hL2] at hch ⊢
        exact absurd rfl hch
      · rw [if_neg hL2] at hch ⊢
        try dsimp only at hch ⊢
        by_cases hne : calculateAmountFromOutputs outputs fee ≠ rfund
        · rw [if_pos hne] at hch ⊢
          try dsimp only at hch ⊢
          have hk1 : k ∈ rspent := putSpentOutputs_changed _ rspent _ k hch
          rw [hsp] at hk1
          simp only [List.nil_append] at hk1
          unfold dropIDs
          simp only [List.flatMap_append, List.flatMap_cons, List.flatMap_nil,
            List.append_nil, List.mem_append]
          right
          try dsimp only
          rw [hin]
          simp only [List.map_append, List.mem_append, List.map_map]
          right
          obtain ⟨p, hp, hpk⟩ := List.mem_map.mp hk1
          exact List.mem_map.mpr ⟨p, hp, by simp [mkScanInput, hpk]⟩
        · rw [if_neg hne] at hch ⊢
          try dsimp only at hch ⊢
          have hk1 : k ∈ rspent := putSpentOutputs_changed _ rspent _ k hch
          rw [hsp] at hk1
          simp only [List.nil_append] at hk1
          unfold dropIDs
          simp only [List.flatMap_append, List.flatMap_cons, List.flatMap_nil,
            List.append_nil, List.mem_append]
          right
          try dsimp only
          rw [hin]
          simp only [List.map_append, List.mem_append, List.map_map]
          right
          obtain ⟨p, hp, hpk⟩ := List.mem_map.mp hk1
          exact List.mem_map.mpr ⟨p, hp, by simp [mkScanInput, hpk]⟩

/-- Lookup form of `putSpentOutputs` for unwritten keys. -/
theorem putSpentOutputs_notmem_lookup (w : WalletState) (ids : List Nat) (h k : Nat)
    (hk : k ∉ ids) :
    alookup (putSpentOutputs w ids h).spentOutputs k = alookup w.spentOutputs k :=
  alookup_foldl_aput_notmem h ids w.spentOutputs k hk

/-- Every spent-output entry `FundSiacoins` writes — the selected outputs
and the parent transaction's aggregated output — is the parent ID of a
siacoin input of the resulting builder's parents or transaction, so a
subsequent `Drop` deletes it. -/
theorem FundSiacoins_changed_in_dropIDs (env : WEnv) (w : WalletState)
    (b : Builder) (amount : Nat) (k : Nat)
    (hch : alookup (FundSiacoins env w b amount).2.2.spentOutputs k ≠
      alookup w.spentOutputs k) :
    k ∈ dropIDs (FundSiacoins env w b amount).2.1 := by
  cases hscan : fundSiacoinsScan env w w.consensusHeight amount w.sortedOutputs {} 0 0 [] with
  | mk rt rrest =>
    obtain ⟨rfund, rpot, rspent⟩ := rrest
    obtain ⟨sel, hsel, hin, hsp⟩ := fundSiacoinsScan_sel env w w.consensusHeight amount
      w.sortedOutputs {} 0 0 []
    rw [hscan] at hin hsp
    try dsimp only at hin hsp
    simp only [List.nil_append] at hin hsp
    simp only [FundSiacoins] at hch ⊢
    rw [hscan] at hch ⊢
    try dsimp only at hch ⊢
    by_cases hL1 : rpot ≥ amount ∧ rfund < amount
    · rw [if_pos hL1] at hch ⊢
      exact absurd rfl hch
    · rw [if_neg hL1] at hch ⊢
      by_cases hL2 : rfund < amount
      · rw [if_pos hL2] at hch ⊢
        exact absurd rfl hch
      · rw [if_neg hL2] at hch ⊢
        try dsimp only at hch ⊢
        by_cases hne : amount ≠ rfund
        · rw [if_pos hne] at hch ⊢
          try dsimp only at hch ⊢
          by_cases hk1 : k ∈ rspent
          · rw [hsp] at hk1
            unfold dropIDs
            simp only [List.flatMap_append, List.flatMap_cons, List.flatMap_nil,
              List.append_nil, List.mem_append]
            left
            right
            rw [signParentInputsLoop_siacoinInputs]
            try dsimp only
            rw [hin]
            simp only [List.map_map]
            obtain ⟨p, hp, hpk⟩ := List.mem_map.mp hk1
            exact List.mem_map.mpr ⟨p, hp, by simp [mkScanInput, hpk]⟩
          · rw [putSpentOutputs_notmem_lookup _ _ _ _ hk1] at hch
            have hk2 := putSpentOutputs_changed _ _ _ k hch
            have hk3 := List.mem_singleton.mp hk2
            unfold dropIDs
            simp only [List.flatMap_append, List.flatMap_cons, List.flatMap_nil,
              List.append_nil, List.mem_append]
            right
            try dsimp only
            simp only [List.map_append, List.mem_append]
            right
            simp [hk3]
        · rw [if_neg hne] at hch ⊢
          try dsimp only at hch ⊢
          by_cases hk1 : k ∈ rspent
          · rw [hsp] at hk1
            unfold dropIDs
            simp only [List.flatMap_append, List.flatMap_cons, List.flatMap_nil,
              List.append_nil, List.mem_append]
            left
            right
            rw [signParentInputsLoop_siacoinInputs]
            try dsimp only
            rw [hin]
            simp only [List.map_map]
            obtain ⟨p, hp, hpk⟩ := List.mem_map.mp hk1
            exact List.mem_map.mpr ⟨p, hp, by simp [mkScanInput, hpk]⟩
          · rw [putSpentOutputs_notmem_lookup _ _ _ _ hk1] at hch
            have hk2 := putSpentOutputs_changed _ _ _ k hch
            have hk3 := List.mem_singleton.mp hk2
            unfold dropIDs
            simp only [List.flatMap_append, List.flatMap_cons, List.flatMap_nil,
              List.append_nil, List.mem_append]
            right
            try dsimp only
            simp only [List.map_append, List.mem_append]
            right
            simp [hk3]

/-- C3 (amended): a single `Drop()` deletes exactly the spent-output
entries whose IDs appear as parent IDs of siacoin inputs across the
builder's parents and transaction, and resets the builder's parents,
transaction and index lists. This covers every reservation recorded by
successful `FundSiacoins` and `FundSiacoinsForOutputs` calls, including
the parent transaction's aggregated output; reservations recorded by
`FundSiafunds` (siafund output IDs) are not among them and survive. -/
theorem C3_drop_restores_siacoin_reservations :
    (∀ (w : WalletState) (b : Builder) (k : Nat),
      alookup (Drop w b).1.spentOutputs k =
        if k ∈ dropIDs b then none else alookup w.spentOutputs k) ∧
    (∀ (w : WalletState) (b : Builder), (Drop w b).2 = ({} : Builder)) ∧
    (∀ (env : WEnv) (w : WalletState) (b : Builder) (amount k : Nat),
      alookup (FundSiacoins env w b amount).2.2.spentOutputs k ≠
        alookup w.spentOutputs k →
      alookup (Drop (FundSiacoins env w b amount).2.2
        (FundSiacoins env w b amount).2.1).1.spentOutputs k = none) ∧
    (∀ (env : WEnv) (w : WalletState) (b : Builder) (outputs : List SiacoinOutput)
      (fee k : Nat),
      alookup (FundSiacoinsForOutputs env w b outputs fee).2.2.spentOutputs k ≠
        alookup w.spentOutputs k →
      alookup (Drop (FundSiacoinsForOutputs env w b outputs fee).2.2
        (FundSiacoinsForOutputs env w b outputs fee).2.1).1.spentOutputs k = none) := by
  refine ⟨Drop_spentOutputs, Drop_builder, ?_, ?_⟩
  · intro env w b amount k hch
    rw [Drop_spentOutputs]
    rw [if_pos (FundSiacoins_changed_in_dropIDs env w b amount k hch)]
  · intro env w b outputs fee k hch
    rw [Drop_spentOutputs]
    rw [if_pos (FundSiacoinsForOutputs_changed_in_dropIDs env w b outputs fee k hch)]

/-- Wallet with one usable 100-coin siacoin output at unlock hash 3. -/
def exWalletSC : WalletState :=
  { spentOutputs := []
    keys := [(3, { unlockConditions :=
      { timelock := 3, publicKeys := [], signaturesRequired := 0 }, secretKeys := [] })]
    seedIndex := 0
    siafundOutputs := []
    consensusHeight := 100
    dustThreshold := 0
    sortedOutputs := [(1, { value := 100, unlockHash := 3 })] }

theorem C3_drop_restores_siacoin_reservations_witness :
    alookup (Drop (FundSiacoins exEnvW exWalletSC {} 100).2.2
      (FundSiacoins exEnvW exWalletSC {} 100).2.1).1.spentOutputs 1 = none ∧
    alookup (Drop (FundSiacoinsForOutputs exEnvW exWalletSC {}
        [{ value := 40, unlockHash := 9 }] 0).2.2
      (FundSiacoinsForOutputs exEnvW exWalletSC {}
        [{ value := 40, unlockHash := 9 }] 0).2.1).1.spentOutputs 1 = none :=
  ⟨C3_drop_restores_siacoin_reservations.2.2.1 exEnvW exWalletSC {} 100 1 (by decide),
   C3_drop_restores_siacoin_reservations.2.2.2 exEnvW exWalletSC {}
     [{ value := 40, unlockHash := 9 }] 0 1 (by decide)⟩

/-- Wallet with a single 5-fund siafund output at unlock hash 3 (id 7). -/
def exWalletSF : WalletState :=
  { spentOutputs := []
    keys := [(3, { unlockConditions :=
      { timelock := 3, publicKeys := [], signaturesRequired := 0 }, secretKeys := [] })]
    seedIndex := 0
    siafundOutputs := [(7, { value := 5, unlockHash := 3, claimStart := 0 })]
    consensusHeight := 100
    dustThreshold := 0
    sortedOutputs := [] }

/-- C3 counterexample: a successful `FundSiafunds` records siafund output
7 as spent, yet `Drop` on the resulting builder leaves that reservation
in place (the deletion loop only visits siacoin inputs). -/
theorem C3_counterexample_siafund_reservation_survives :
    (FundSiafunds exEnvW exWalletSF {} 5).1 = .ok () ∧
    alookup (FundSiafunds exEnvW exWalletSF {} 5).2.2.spentOutputs 7 = some 100 ∧
    alookup (Drop (FundSiafunds exEnvW exWalletSF {} 5).2.2
      (FundSiafunds exEnvW exWalletSF {} 5).2.1).1.spentOutputs 7 = some 100 := by
  refine ⟨?_, ?_, ?_⟩ <;> decide

/-- Once the siacoin signing loop has seen a signed builder, the builder
stays signed. -/
theorem signSiacoinInputsLoop_signed_mono (env : WEnv) (w : WalletState)
    (cf : CoveredFields) :
    ∀ (l : List Nat) (b : Builder), b.signed = true →
      ((signSiacoinInputsLoop env w cf l b).2).signed = true := by
  intro l
  induction l with
  | nil => intro b hb; exact hb
  | cons idx rest ih =>
    intro b hb
    simp only [signSiacoinInputsLoop]
    cases alookup w.keys
        (env.ucHash (b.transaction.siacoinInputs.getD idx default).unlockConditions) with
    | none => exact hb
    | some key => exact ih _ rfl

/-- Same for the siafund signing loop. -/
theorem signSiafundInputsLoop_signed_mono (env : WEnv) (w : WalletState)
    (cf : CoveredFields) :
    ∀ (l : List Nat) (b : Builder), b.signed = true →
      ((signSiafundInputsLoop env w cf l b).2).signed = true := by
  intro l
  induction l with
  | nil => intro b hb; exact hb
  | cons idx rest ih =>
    intro b hb
    simp only [signSiafundInputsLoop]
    cases alookup w.keys
        (env.ucHash (b.transaction.siafundInputs.getD idx default).unlockConditions) with
    | none => exact hb
    | some key => exact ih _ rfl

/-- If the siacoin signing loop finishes with an unsigned builder, it
never processed an input: the builder is unchanged. -/
theorem signSiacoinInputsLoop_unsigned_id (env : WEnv) (w : WalletState)
    (cf : CoveredFields) :
    ∀ (l : List Nat) (b : Builder),
      ((signSiacoinInputsLoop env w cf l b).2).signed = false →
      (signSiacoinInputsLoop env w cf l b).2 = b := by
  intro l
  induction l with
  | nil => intro b _; rfl
  | cons idx rest ih =>
    intro b hb
    unfold signSiacoinInputsLoop at hb ⊢
    split at hb
    · rfl
    · exact absurd hb (by simp [signSiacoinInputsLoop_signed_mono])

/-- Same for the siafund signing loop. -/
theorem signSiafundInputsLoop_unsigned_id (env : WEnv) (w : WalletState)
    (cf : CoveredFields) :
    ∀ (l : List Nat) (b : Builder),
      ((signSiafundInputsLoop env w cf l b).2).signed = false →
      (signSiafundInputsLoop env w cf l b).2 = b := by
  intro l
  induction l with
  | nil => intro b _; rfl
  | cons idx rest ih =>
    intro b hb
    unfold signSiafundInputsLoop at hb ⊢
    split at hb
    · rfl
    · exact absurd hb (by simp [signSiafundInputsLoop_signed_mono])

/-- The siacoin signing loop never touches the builder's fund-recorded
siafund index list. -/
theorem signSiacoinInputsLoop_siafund_indices (env : WEnv) (w : WalletState)
    (cf : CoveredFields) :
    ∀ (l : List Nat) (b : Builder),
      ((signSiacoinInputsLoop env w cf l b).2).siafundInputs = b.siafundInputs := by
  intro l
  induction l with
  | nil => intro b; rfl
  | cons idx rest ih =>
    intro b
    simp only [signSiacoinInputsLoop]
    cases alookup w.keys
        (env.ucHash (b.transaction.siacoinInputs.getD idx default).unlockConditions) with
    | none => rfl
    | some key => exact ih _

/-- A successful run of the siacoin signing loop over a non-empty index
list leaves the builder signed: the first iteration's key lookup must have
succeeded (otherwise the loop errors), that iteration sets the flag, and
the flag is monotone. -/
theorem signSiacoinInputsLoop_ok_cons_signed (env : WEnv) (w : WalletState)
    (cf : CoveredFields) (idx : Nat) (rest : List Nat) (b : Builder)
    (hok : (signSiacoinInputsLoop env w cf (idx :: rest) b).1 = .ok ()) :
    ((signSiacoinInputsLoop env w cf (idx :: rest) b).2).signed = true := by
  unfold signSiacoinInputsLoop at hok ⊢
  cases h : alookup w.keys
      (env.ucHash (b.transaction.siacoinInputs.getD idx default).unlockConditions) with
  | none =>
    rw [h] at hok
    simp at hok
  | some key =>
    exact signSiacoinInputsLoop_signed_mono env w cf rest _ rfl

/-- Same for the siafund signing loop. -/
theorem signSiafundInputsLoop_ok_cons_signed (env : WEnv) (w : WalletState)
    (cf : CoveredFields) (idx : Nat) (rest : List Nat) (b : Builder)
    (hok : (signSiafundInputsLoop env w cf (idx :: rest) b).1 = .ok ()) :
    ((signSiafundInputsLoop env w cf (idx :: rest) b).2).signed = true := by
  unfold signSiafundInputsLoop at hok ⊢
  cases h : alookup w.keys
      (env.ucHash (b.transaction.siafundInputs.getD idx default).unlockConditions) with
  | none =>
    rw [h] at hok
    simp at hok
  | some key =>
    exact signSiafundInputsLoop_signed_mono env w cf rest _ rfl

/-- A `Sign` call that succeeds on a builder with at least one
fund-recorded input leaves the builder signed, whatever the number of
signatures produced: the flag is set once per processed input. -/
theorem Sign_ok_processed_signed (env : WEnv) (w : WalletState) (b : Builder)
    (wt : Bool) (ts : List Transaction)
    (hne : b.siacoinInputs ≠ [] ∨ b.siafundInputs ≠ [])
    (hok : (Sign env w b wt).1 = .ok ts) :
    (Sign env w b wt).2.signed = true := by
  by_cases hb : b.signed = true
  · exfalso
    simp [Sign, hb] at hok
  · have hbf : b.signed = false := by
      cases hx : b.signed
      · rfl
      · exact absurd hx hb
    simp only [Sign, hbf] at hok ⊢
    rw [if_neg (by simp)] at hok ⊢
    cases hsc : signSiacoinInputsLoop env w (buildCoveredFields b.transaction wt)
        b.siacoinInputs b with
    | mk r1 b1 =>
      try rw [hsc] at hok
      try rw [hsc]
      cases r1 with
      | error e =>
        try dsimp only at hok
        simp at hok
      | ok u =>
        cases u
        try dsimp only at hok ⊢
        cases hsf : signSiafundInputsLoop env w (buildCoveredFields b.transaction wt)
            b1.siafundInputs b1 with
        | mk r2 b2 =>
          try rw [hsf] at hok
          try rw [hsf]
          cases r2 with
          | error e2 =>
            try dsimp only at hok
            simp at hok
          | ok u2 =>
            cases u2
            try dsimp only at hok ⊢
            rcases hne with h | h
            · cases hl : b.siacoinInputs with
              | nil => exact absurd hl h
              | cons i r =>
                have hok1 : (signSiacoinInputsLoop env w
                    (buildCoveredFields b.transaction wt) (i :: r) b).1 = .ok () := by
                  rw [← hl, hsc]
                have hs1 : b1.signed = true := by
                  have hh := signSiacoinInputsLoop_ok_cons_signed env w
                    (buildCoveredFields b.transaction wt) i r b hok1
                  rw [← hl, hsc] at hh
                  exact hh
                have hh2 := signSiafundInputsLoop_signed_mono env w
                  (buildCoveredFields b.transaction wt) b1.siafundInputs b1 hs1
                rw [hsf] at hh2
                exact hh2
            · have hb1sf : b1.siafundInputs = b.siafundInputs := by
                have hh := signSiacoinInputsLoop_siafund_indices env w
                  (buildCoveredFields b.transaction wt) b.siacoinInputs b
                rw [hsc] at hh
                exact hh
              cases hl : b1.siafundInputs with
              | nil => rw [hb1sf] at hl; exact absurd hl h
              | cons i r =>
                have hok2 : (signSiafundInputsLoop env w
                    (buildCoveredFields b.transaction wt) (i :: r) b1).1 = .ok () := by
                  rw [← hl, hsf]
                have hh := signSiafundInputsLoop_ok_cons_signed env w
                  (buildCoveredFields b.transaction wt) i r b1 hok2
                rw [← hl, hsf] at hh
                exact hh

/-- C7 (amended): a `Sign` call on a poisoned builder fails with the
already-signed error and changes nothing; a `Sign` call on a builder with
no fund-added inputs succeeds, emits no signatures and does not poison the
builder; any `Sign` call that appended at least one signature leaves the
builder poisoned, so the subsequent call fails; and any successful `Sign`
call on a builder with at least one fund-added siacoin or siafund input
poisons the builder even when zero signatures are emitted, because the
flag is set once per processed input regardless of the signature count. -/
theorem C7_sign_poisoning :
    (∀ (env : WEnv) (w : WalletState) (b : Builder) (wt : Bool),
      b.signed = true → Sign env w b wt = (.error .builderAlreadySigned, b)) ∧
    (∀ (env : WEnv) (w : WalletState) (b : Builder) (wt : Bool),
      b.signed = false → b.siacoinInputs = [] → b.siafundInputs = [] →
      Sign env w b wt = (.ok (b.parents ++ [b.transaction]), b)) ∧
    (∀ (env : WEnv) (w : WalletState) (b : Builder) (wt : Bool),
      b.signed = false →
      b.transaction.transactionSignatures.length <
        (Sign env w b wt).2.transaction.transactionSignatures.length →
      (Sign env w b wt).2.signed = true) ∧
    (∀ (env : WEnv) (w : WalletState) (b : Builder) (wt : Bool)
      (ts : List Transaction),
      b.siacoinInputs ≠ [] ∨ b.siafundInputs ≠ [] →
      (Sign env w b wt).1 = .ok ts →
      (Sign env w b wt).2.signed = true) := by
  refine ⟨?_, ?_, ?_, fun env w b wt ts hne hok =>
    Sign_ok_processed_signed env w b wt ts hne hok⟩
  · intro env w b wt hb
    simp [Sign, hb]
  · intro env w b wt hb hsc hsf
    simp [Sign, hb, hsc, hsf, signSiacoinInputsLoop, signSiafundInputsLoop]
  · intro env w b wt hb hgrow
    by_contra hns
    have hfin : (Sign env w b wt).2.signed = false := by
      cases hx : (Sign env w b wt).2.signed
      · rfl
      · exact absurd hx hns
    apply absurd hgrow
    simp only [Sign, hb] at hfin ⊢
    rw [if_neg (by simp)] at hfin ⊢
    cases hsc : signSiacoinInputsLoop env w (buildCoveredFields b.transaction wt)
        b.siacoinInputs b with
    | mk r1 b1 =>
      try rw [hsc] at hfin
      try rw [hsc]
      have hb1 := signSiacoinInputsLoop_unsigned_id env w
        (buildCoveredFields b.transaction wt) b.siacoinInputs b
      rw [hsc] at hb1
      cases r1 with
      | error e =>
        try dsimp only at hfin ⊢
        rw [show b1 = b from hb1 hfin]
        omega
      | ok u =>
        cases u
        try dsimp only at hfin ⊢
        cases hsf2 : signSiafundInputsLoop env w (buildCoveredFields b.transaction wt)
            b1.siafundInputs b1 with
        | mk r2 b2 =>
          try rw [hsf2] at hfin
          try rw [hsf2]
          have hb2 := signSiafundInputsLoop_unsigned_id env w
            (buildCoveredFields b.transaction wt) b1.siafundInputs b1
          rw [hsf2] at hb2
          cases r2 with
          | error e2 =>
            try dsimp only at hfin ⊢
            have h2 : b2 = b1 := hb2 hfin
            have h1 : b1 = b := hb1 (by rw [← h2]; exact hfin)
            rw [show b2 = b from h2.trans h1]
            omega
          | ok u2 =>
            cases u2
            try dsimp only at hfin ⊢
            have h2 : b2 = b1 := hb2 hfin
            have h1 : b1 = b := hb1 (by rw [← h2]; exact hfin)
            rw [show b2 = b from h2.trans h1]
            omega

/-- Unlock conditions requiring one signature but listing no public keys:
`addSignatures` can then emit zero signatures. -/
def exUCA : UnlockConditions := { timelock := 5, publicKeys := [], signaturesRequired := 1 }

/-- Wallet holding a key for `exUCA` with no secret keys. -/
def exWalletS : WalletState :=
  { spentOutputs := []
    keys := [(5, { unlockConditions := exUCA, secretKeys := [] })]
    seedIndex := 0
    siafundOutputs := []
    consensusHeight := 0
    dustThreshold := 0
    sortedOutputs := [] }

/-- Builder with one fund-added siacoin input spending under `exUCA`. -/
def exBuilderS : Builder :=
  { transaction := { siacoinInputs := [{ parentID := 9, unlockConditions := exUCA }] }
    siacoinInputs := [0] }

/-- C7 counterexample: this `Sign` call succeeds and emits zero
signatures, yet it poisons the builder — the next `Sign` call fails with
the already-signed error, contradicting the claim that a zero-signature
`Sign` does not poison the builder. -/
theorem C7_counterexample_zero_signature_sign_poisons :
    (Sign exEnvW exWalletS exBuilderS true).1 = .ok [exBuilderS.transaction] ∧
    (Sign exEnvW exWalletS exBuilderS true).2.transaction.transactionSignatures.length = 0 ∧
    (Sign exEnvW exWalletS exBuilderS true).2.signed = true ∧
    (Sign exEnvW exWalletS ((Sign exEnvW exWalletS exBuilderS true).2) true).1 =
      .error .builderAlreadySigned ∧
    exBuilderS.signed = false := by
  refine ⟨?_, ?_, ?_, ?_, ?_⟩ <;> decide

/-- A poisoned builder. -/
def exBuilderSigned : Builder := { signed := true }

/-- Unlock conditions with one matching public key. -/
def exUCB : UnlockConditions :=
  { timelock := 6, publicKeys := [{ key := 42 }], signaturesRequired := 1 }

/-- Wallet holding the secret key 42 for `exUCB` (`exEnvW.pubOf` is the
identity). -/
def exWalletPos : WalletState :=
  { spentOutputs := []
    keys := [(6, { unlockConditions := exUCB, secretKeys := [42] })]
    seedIndex := 0
    siafundOutputs := []
    consensusHeight := 0
    dustThreshold := 0
    sortedOutputs := [] }

/-- Builder with one fund-added siacoin input spending under `exUCB`. -/
def exBuilderPos : Builder :=
  { transaction := { siacoinInputs := [{ parentID := 8, unlockConditions := exUCB }] }
    siacoinInputs := [0] }

theorem C7_sign_poisoning_witness :
    Sign exEnvW exWalletS exBuilderSigned true =
      (.error .builderAlreadySigned, exBuilderSigned) ∧
    Sign exEnvW exWalletS ({} : Builder) true =
      (.ok (({} : Builder).parents ++ [({} : Builder).transaction]), ({} : Builder)) ∧
    (Sign exEnvW exWalletPos exBuilderPos true).2.signed = true ∧
    (Sign exEnvW exWalletS exBuilderS true).2.signed = true :=
  ⟨C7_sign_poisoning.1 exEnvW exWalletS exBuilderSigned true (by decide),
   C7_sign_poisoning.2.1 exEnvW exWalletS {} true (by decide) (by decide) (by decide),
   C7_sign_poisoning.2.2.1 exEnvW exWalletPos exBuilderPos true (by decide) (by decide),
   C7_sign_poisoning.2.2.2 exEnvW exWalletS exBuilderS true [exBuilderS.transaction]
     (by decide) (by decide)⟩

end Sia
